import Mathlib

/-!
Shallow embedding of the gs-orm query/validation/type-coercion core.

Source of truth:
  * `src/lib/utils.js` — `applyDefaults`, `validateData`, `filterRecords`,
    `sortRecords`, `applyQueryOptions`
  * `src/lib/model.js` — `_convertValueType`

JavaScript machine values are modelled by `JSVal`; JS numbers by `JNum`
(NaN, ±Infinity, or a finite value modelled as a rational — every finite
double is a rational, and none of the analyzed behaviors depends on
rounding).  Built-ins used by the source (`parseFloat`, `Number`,
`JSON.parse`, `Date.parse`, `==`, `<`, `RegExp#test`, `Array#sort`,
`Array#slice`, `localeCompare`) are given explicit executable models below,
each faithful on the value forms the analyzed code can reach; behavior that
is environment-dependent in JS (exact `Date#toString` rendering, locale
collation tables) is modelled by a fixed deterministic choice and noted at
the definition.
-/

namespace GsOrm

/-- An exact rational, kept in lowest terms by the `mkFrac` smart
constructor (every finite JS double is such a rational; none of the
analyzed behaviors depends on double rounding). -/
structure Frac where
  num : Int
  den : Nat
deriving DecidableEq, Repr

/-- Normalized fraction `n / d` (lowest terms, positive denominator);
`d = 0` never arises from the numeric grammar and maps to `0`. -/
def mkFrac (n : Int) (d : Nat) : Frac :=
  if d = 0 then ⟨0, 1⟩
  else
    let g := n.natAbs.gcd d
    ⟨n / (g : Int), d / g⟩

/-- The integer `n` as a fraction. -/
def intFrac (n : Int) : Frac := ⟨n, 1⟩

/-- Value equality of fractions (cross multiplication). -/
def fracEq (a b : Frac) : Bool :=
  a.num * (b.den : Int) = b.num * (a.den : Int)

/-- Value order on fractions (denominators are nonnegative). -/
def fracLt (a b : Frac) : Bool :=
  a.num * (b.den : Int) < b.num * (a.den : Int)

/-- Exact difference. -/
def fracSub (a b : Frac) : Frac :=
  mkFrac (a.num * (b.den : Int) - b.num * (a.den : Int)) (a.den * b.den)

/-- Exact negation (normalization is preserved). -/
def fracNeg (a : Frac) : Frac := ⟨-a.num, a.den⟩

/-- Exact product. -/
def fracMul (a b : Frac) : Frac :=
  mkFrac (a.num * b.num) (a.den * b.den)

/-- A JavaScript number: NaN, +Infinity, -Infinity, or a finite value. -/
inductive JNum where
  | nan
  | pinf
  | ninf
  | val (q : Frac)
deriving DecidableEq, Repr

namespace JNum

/-- IEEE equality on two JS numbers (`===`, and `==` after type alignment):
NaN is not equal to anything, including itself. -/
def jeq : JNum → JNum → Bool
  | nan, _ => false
  | _, nan => false
  | pinf, pinf => true
  | ninf, ninf => true
  | val a, val b => fracEq a b
  | _, _ => false

/-- ECMA abstract `<` on numbers; `none` is the "undefined" outcome produced
when either operand is NaN. -/
def ltU : JNum → JNum → Option Bool
  | nan, _ => none
  | _, nan => none
  | ninf, ninf => some false
  | ninf, _ => some true
  | _, ninf => some false
  | pinf, pinf => some false
  | _, pinf => some true
  | pinf, _ => some false
  | val a, val b => some (fracLt a b)

/-- IEEE subtraction, as used for the sorter's `diff`. -/
def sub : JNum → JNum → JNum
  | nan, _ => nan
  | _, nan => nan
  | pinf, pinf => nan
  | ninf, ninf => nan
  | pinf, _ => pinf
  | ninf, _ => ninf
  | _, pinf => ninf
  | _, ninf => pinf
  | val a, val b => val (fracSub a b)

/-- IEEE negation (multiplication by the sort multiplier `-1`). -/
def neg : JNum → JNum
  | nan => nan
  | pinf => ninf
  | ninf => pinf
  | val a => val (fracNeg a)

/-- `x === 0` / `x !== 0` test: NaN and the infinities are not zero. -/
def isZero : JNum → Bool
  | val a => a.num = 0
  | _ => false

/-- Sign as consumed by `Array#sort` (ECMA SortCompare): a NaN comparator
result counts as `0`. -/
def sortSign : JNum → Int
  | nan => 0
  | pinf => 1
  | ninf => -1
  | val a => if a.num < 0 then -1 else if 0 < a.num then 1 else 0

end JNum

/-- A JavaScript value, covering the forms the analyzed code manipulates:
`undefined`, `null`, booleans, numbers, strings, `Date` objects (carrying
their time value; NaN = Invalid Date), plain objects and arrays. -/
inductive JSVal where
  | vundef
  | vnull
  | vbool (b : Bool)
  | vnum (n : JNum)
  | vstr (s : String)
  | vdate (t : JNum)
  | vobj (fields : List (String × JSVal))
  | varr (elems : List JSVal)

namespace JSVal

/-- `v !== undefined`. -/
def isDef : JSVal → Bool
  | vundef => false
  | _ => true

/-- `v === ''` (strict equality against the empty string). -/
def isEmptyStr : JSVal → Bool
  | vstr "" => true
  | _ => false

/-- JS truthiness: `undefined`, `null`, `false`, `0`, `NaN` and `""` are
falsy; every other value (objects included) is truthy. -/
def truthy : JSVal → Bool
  | vundef => false
  | vnull => false
  | vbool b => b
  | vnum n => !n.isZero && n != .nan
  | vstr s => s != ""
  | _ => true

/-- `typeof v === 'object' && v !== null` (plain objects, arrays, dates). -/
def isObjectType : JSVal → Bool
  | vobj _ => true
  | varr _ => true
  | vdate _ => true
  | _ => false

/-- `v === null || v === undefined`. -/
def isNullish : JSVal → Bool
  | vundef => true
  | vnull => true
  | _ => false

end JSVal

/-- `String#toLowerCase()` (character-wise lowering; the analyzed strings
are ASCII, where JS and this model agree). -/
def strLower (s : String) : String :=
  String.mk (s.toList.map Char.toLower)

/-! ### Numeric string grammar (models `parseFloat` and string `ToNumber`) -/

/-- Whitespace skipped by JS numeric parsing: ECMA *StrWhiteSpaceChar*,
i.e. WhiteSpace (TAB, VT, FF, SP, NBSP, ZWNBSP and the Unicode
space separators) and LineTerminator (LF, CR, LS, PS). -/
def isJsWs (c : Char) : Bool :=
  c = ' ' || c = '\t' || c = '\n' || c = '\r' || c = Char.ofNat 11 || c = Char.ofNat 12 ||
  c = Char.ofNat 0xA0 || c = Char.ofNat 0x1680 ||
  (Char.ofNat 0x2000 ≤ c && c ≤ Char.ofNat 0x200A) ||
  c = Char.ofNat 0x2028 || c = Char.ofNat 0x2029 ||
  c = Char.ofNat 0x202F || c = Char.ofNat 0x205F || c = Char.ofNat 0x3000 ||
  c = Char.ofNat 0xFEFF

/-- Numeric value of a run of decimal digits. -/
def digitsVal (ds : List Char) : Nat :=
  ds.foldl (fun acc c => acc * 10 + (c.toNat - 48)) 0

/-- `10 ^ e` as an exact fraction, for a signed exponent. -/
def pow10 (e : Int) : Frac :=
  if 0 ≤ e then ⟨(10 : Int) ^ e.toNat, 1⟩ else ⟨1, 10 ^ (-e).toNat⟩

/-- Parse an optional exponent part `e[+|-]digits` at the head of `cs`;
returns the exponent value and the rest.  When no well-formed exponent
follows (e.g. `parseFloat("1e")`), nothing is consumed and the exponent
is `0`. -/
def parseExp (cs : List Char) : Int × List Char :=
  match cs with
  | 'e' :: rest => parseExpTail rest cs
  | 'E' :: rest => parseExpTail rest cs
  | _ => (0, cs)
where
  parseExpTail (rest orig : List Char) : Int × List Char :=
    match rest with
    | '+' :: r =>
      let (ds, r') := r.span Char.isDigit
      if ds.isEmpty then (0, orig) else ((digitsVal ds : Int), r')
    | '-' :: r =>
      let (ds, r') := r.span Char.isDigit
      if ds.isEmpty then (0, orig) else (-(digitsVal ds : Int), r')
    | r =>
      let (ds, r') := r.span Char.isDigit
      if ds.isEmpty then (0, orig) else ((digitsVal ds : Int), r')

/-- The unsigned decimal mantissa `digits [. digits]` at the head of `cs`,
with its exponent applied; `none` when no digit is present. Returns the
value and the unconsumed rest. -/
def parseMantissa (cs : List Char) : Option (Frac × List Char) :=
  let (ip, r1) := cs.span Char.isDigit
  let (fp, r2) :=
    match r1 with
    | '.' :: r => r.span Char.isDigit
    | _ => ([], r1)
  if ip.isEmpty && fp.isEmpty then none
  else
    let scale : Nat := 10 ^ fp.length
    let mant : Frac := mkFrac ((digitsVal ip * scale + digitsVal fp : Nat) : Int) scale
    let (e, r3) := parseExp r2
    some (fracMul mant (pow10 e), r3)

/-- Model of `parseFloat` on a character list: skip leading whitespace, read
an optional sign, then the longest prefix that is `Infinity` or a decimal
literal; NaN when no numeric prefix exists.  (`parseFloat` never reads
hex/octal/binary prefixes: `parseFloat("0x10")` is `0`.) -/
def parseFloatChars (cs : List Char) : JNum :=
  let cs := cs.dropWhile isJsWs
  let (neg, cs) :=
    match cs with
    | '-' :: r => (true, r)
    | '+' :: r => (false, r)
    | r => (false, r)
  if cs.take 8 = "Infinity".toList then
    if neg then .ninf else .pinf
  else
    match parseMantissa cs with
    | none => .nan
    | some (q, _) => .val (if neg then fracNeg q else q)

/-- Value of a run of hex digits (for the `ToNumber` `0x` form). -/
def hexVal (ds : List Char) : Nat :=
  ds.foldl
    (fun acc c =>
      acc * 16 +
        (if c.isDigit then c.toNat - 48
         else if 'a' ≤ c && c ≤ 'f' then c.toNat - 87
         else c.toNat - 55))
    0

/-- Is `c` a hex digit? -/
def isHexDigit (c : Char) : Bool :=
  c.isDigit || ('a' ≤ c && c ≤ 'f') || ('A' ≤ c && c ≤ 'F')

/-- Model of string `ToNumber` (the `Number(...)` conversion on a string):
the whole trimmed string must be a numeric literal; the empty/whitespace
string converts to `0`; `0x`/`0b`/`0o` integer forms are honored; anything
else is NaN.  Unlike `parseFloat`, no partial prefix is accepted. -/
def toNumberChars (cs : List Char) : JNum :=
  let cs := (cs.dropWhile isJsWs).reverse.dropWhile isJsWs |>.reverse
  match cs with
  | [] => .val (intFrac 0)
  | '0' :: 'x' :: ds =>
    if !ds.isEmpty && ds.all isHexDigit then .val (intFrac (hexVal ds : Int)) else .nan
  | '0' :: 'X' :: ds =>
    if !ds.isEmpty && ds.all isHexDigit then .val (intFrac (hexVal ds : Int)) else .nan
  | '0' :: 'b' :: ds =>
    if !ds.isEmpty && ds.all (fun c => c = '0' || c = '1') then
      .val (intFrac (binVal ds : Int))
    else .nan
  | '0' :: 'B' :: ds =>
    if !ds.isEmpty && ds.all (fun c => c = '0' || c = '1') then
      .val (intFrac (binVal ds : Int))
    else .nan
  | '0' :: 'o' :: ds =>
    if !ds.isEmpty && ds.all (fun c => '0' ≤ c && c ≤ '7') then
      .val (intFrac (octVal ds : Int))
    else .nan
  | '0' :: 'O' :: ds =>
    if !ds.isEmpty && ds.all (fun c => '0' ≤ c && c ≤ '7') then
      .val (intFrac (octVal ds : Int))
    else .nan
  | _ => toNumberSigned cs
where
  binVal (ds : List Char) : Nat := ds.foldl (fun acc c => acc * 2 + (c.toNat - 48)) 0
  octVal (ds : List Char) : Nat := ds.foldl (fun acc c => acc * 8 + (c.toNat - 48)) 0
  toNumberSigned (cs : List Char) : JNum :=
    let (neg, cs) :=
      match cs with
      | '-' :: r => (true, r)
      | '+' :: r => (false, r)
      | r => (false, r)
    if cs = "Infinity".toList then (if neg then .ninf else .pinf)
    else
      match parseMantissa cs with
      | some (q, []) => .val (if neg then fracNeg q else q)
      | _ => .nan

/-! ### Number → string rendering (models number `ToString`) -/

/-- Fractional digits of `rem / den` by long division (`fuel` bounds the
output; JS always prints finitely many digits). -/
def fracDigits (fuel rem den : Nat) : String :=
  match fuel with
  | 0 => ""
  | f + 1 =>
    if rem = 0 then ""
    else
      let d := rem * 10 / den
      (Nat.repr d) ++ fracDigits f (rem * 10 % den) den

/-- Decimal rendering of a nonnegative fraction. -/
def ratToStringNN (q : Frac) : String :=
  let n := q.num.toNat
  let d := q.den
  if n % d = 0 then Nat.repr (n / d)
  else Nat.repr (n / d) ++ "." ++ fracDigits 40 (n % d) d

/-- Decimal rendering of a fraction, as JS `String(number)` produces for the
finite numbers the analyzed code manipulates.  (JS prints the shortest
round-tripping decimal of a double; on values that are exact decimals the
two agree.) -/
def ratToString (q : Frac) : String :=
  if q.num < 0 then "-" ++ ratToStringNN (fracNeg q) else ratToStringNN q

/-- `String(n)` for a JS number. -/
def JNum.toDisplay : JNum → String
  | .nan => "NaN"
  | .pinf => "Infinity"
  | .ninf => "-Infinity"
  | .val q => ratToString q

/-- `Date#toString`.  The exact JS rendering is environment-dependent
(weekday, month name, local timezone); the model fixes a deterministic
rendering that, like the real one, never reparses as a float and is not
valid JSON.  No analyzed behavior depends on the concrete format. -/
def dateToString (t : JNum) : String :=
  match t with
  | .nan => "Invalid Date"
  | t => "[Date " ++ t.toDisplay ++ "]"

/-- Array-nesting depth of a value (`ToString` recurses only through
arrays). -/
def jsDepth : JSVal → Nat
  | .varr es => 1 + (es.attach.map (fun e => jsDepth e.1)).foldl max 0
  | _ => 1
decreasing_by
  have hm := List.sizeOf_lt_of_mem e.2
  simp only [JSVal.varr.sizeOf_spec]
  omega

/-- `ToString` of a non-array value: plain objects render as
`"[object Object]"` (the array case of this helper is unused). -/
def jsToStringLeaf : JSVal → String
  | .vundef => "undefined"
  | .vnull => "null"
  | .vbool b => if b then "true" else "false"
  | .vnum n => n.toDisplay
  | .vstr s => s
  | .vdate t => dateToString t
  | .vobj _ => "[object Object]"
  | .varr _ => ""

/-- `ToString` with recursion into array elements bounded by a fuel that
the entry point (`jsToString`) always passes in excess.  Arrays render as
their elements joined by commas with `null`/`undefined` elements rendered
empty. -/
def jsToStringF (fuel : Nat) (v : JSVal) : String :=
  match v with
  | .varr es =>
    (match fuel with
     | fuel' + 1 =>
       String.intercalate ","
         (es.map (fun e =>
           match e with
           | .vnull => ""
           | .vundef => ""
           | v => jsToStringF fuel' v))
     | 0 => "")
  | v => jsToStringLeaf v

/-- `String(v)` / `ToString` (the value's array depth bounds the recursion,
so the fuel never runs out). -/
def jsToString : JSVal → String
  | .varr es => jsToStringF (jsDepth (.varr es)) (.varr es)
  | v => jsToStringLeaf v

/-- `ToPrimitive` with hint *number* (used by `<`, `Number(...)`): plain
objects and arrays go through `toString`; a `Date` yields its time value
(`valueOf`). -/
def toPrimNumber : JSVal → JSVal
  | .vdate t => .vnum t
  | .vobj fs => .vstr (jsToString (.vobj fs))
  | .varr es => .vstr (jsToString (.varr es))
  | v => v

/-- `ToPrimitive` with hint *default* (used by `==`): like the number hint,
except a `Date` prefers its string form. -/
def toPrimDefault : JSVal → JSVal
  | .vdate t => .vstr (dateToString t)
  | .vobj fs => .vstr (jsToString (.vobj fs))
  | .varr es => .vstr (jsToString (.varr es))
  | v => v

/-- `ToNumber` of a primitive value. -/
def primToNum : JSVal → JNum
  | .vundef => .nan
  | .vnull => .val (intFrac 0)
  | .vbool b => .val (intFrac (if b then 1 else 0))
  | .vnum n => n
  | .vstr s => toNumberChars s.toList
  | v => toNumberChars (jsToString v).toList

/-- `Number(v)`: `ToPrimitive` with hint number, then `ToNumber`. -/
def toNumberVal (v : JSVal) : JNum :=
  primToNum (toPrimNumber v)

/-- `parseFloat(v)`: the argument is converted by `ToString`, then the
numeric prefix is read.  On a number argument JS guarantees the round trip
`parseFloat(String(x)) === x`, which the model states directly. -/
def parseFloatVal : JSVal → JNum
  | .vnum n => n
  | .vstr s => parseFloatChars s.toList
  | v => parseFloatChars (jsToString v).toList

/-! ### Loose equality, SameValueZero, abstract relational comparison -/

/-- Loose `==` between two primitives (no objects, no `null`/`undefined`):
numbers/strings/booleans compare after the ECMA numeric alignments. -/
def primEq : JSVal → JSVal → Bool
  | .vnum a, .vnum b => a.jeq b
  | .vstr a, .vstr b => a = b
  | .vbool a, .vbool b => a = b
  | .vnum a, .vstr s => a.jeq (toNumberChars s.toList)
  | .vstr s, .vnum b => (toNumberChars s.toList).jeq b
  | .vbool a, .vnum b => (JNum.val (intFrac (if a then 1 else 0))).jeq b
  | .vnum a, .vbool b => a.jeq (JNum.val (intFrac (if b then 1 else 0)))
  | .vbool a, .vstr s => (JNum.val (intFrac (if a then 1 else 0))).jeq (toNumberChars s.toList)
  | .vstr s, .vbool b => (toNumberChars s.toList).jeq (JNum.val (intFrac (if b then 1 else 0)))
  | _, _ => false

/-- ECMA Abstract Equality `x == y`.  Two object-typed values compare by
reference; the embedding works with values, so the model takes distinct
references (always the case between a stored record value and a criteria
object in the analyzed code) and yields `false`. -/
def jsEq (x y : JSVal) : Bool :=
  if x.isObjectType && y.isObjectType then false
  else if x.isNullish || y.isNullish then x.isNullish && y.isNullish
  else primEq (toPrimDefault x) (toPrimDefault y)

/-- SameValueZero, as used by `Array#includes`: like `===` but NaN matches
NaN.  Object-typed values compare by reference (distinct in this model). -/
def sameValueZero : JSVal → JSVal → Bool
  | .vnum a, .vnum b => a = b
  | .vstr a, .vstr b => a = b
  | .vbool a, .vbool b => a = b
  | .vundef, .vundef => true
  | .vnull, .vnull => true
  | _, _ => false

/-- ECMA Abstract Relational `x < y`; `none` is the "undefined" outcome
(a NaN was involved).  Two strings compare lexicographically by code unit;
otherwise both sides convert to numbers. -/
def jsLtU (x y : JSVal) : Option Bool :=
  match toPrimNumber x, toPrimNumber y with
  | .vstr a, .vstr b => some (decide (a < b))
  | px, py => JNum.ltU (primToNum px) (primToNum py)

/-- `x > y`. -/
def jsGtB (x y : JSVal) : Bool := (jsLtU y x).getD false

/-- `x < y`. -/
def jsLtB (x y : JSVal) : Bool := (jsLtU x y).getD false

/-- `x >= y` (`¬(x < y)`, false when NaN is involved). -/
def jsGeB (x y : JSVal) : Bool := !((jsLtU x y).getD true)

/-- `x <= y` (`¬(y < x)`, false when NaN is involved). -/
def jsLeB (x y : JSVal) : Bool := !((jsLtU y x).getD true)

/-! ### Date parsing -/

/-- Days in a month of a given year (proleptic Gregorian). -/
def daysInMonth (y : Int) (m : Nat) : Nat :=
  if m = 2 then
    if y % 4 = 0 && (y % 100 ≠ 0 || y % 400 = 0) then 29 else 28
  else if m = 4 || m = 6 || m = 9 || m = 11 then 30
  else 31

/-- Days from the civil epoch 1970-01-01 to `y-m-d` (Gregorian). -/
def daysFromCivil (y : Int) (m d : Nat) : Int :=
  let y' : Int := if m ≤ 2 then y - 1 else y
  let era : Int := (if 0 ≤ y' then y' else y' - 399) / 400
  let yoe : Int := y' - era * 400
  let mp : Int := ((m : Int) + 9) % 12
  let doy : Int := (153 * mp + 2) / 5 + (d : Int) - 1
  let doe : Int := yoe * 365 + yoe / 4 - yoe / 100 + doy
  era * 146097 + doe - 719468

/-- Exactly `n` decimal digits at the head of `cs`: their value and the
rest. -/
def fixedDigits (n : Nat) (cs : List Char) : Option (Nat × List Char) :=
  let ds := cs.take n
  if ds.length = n && ds.all Char.isDigit then some (digitsVal ds, cs.drop n)
  else none

/-- The *Date* production of the ECMA Date Time String Format:
`YYYY`, `±YYYYYY` (expanded year, `-000000` excluded), optionally
`-MM` and then `-DD`; absent month/day default to `01`.  Returns
`(year, month, day, rest)`. -/
def parseIsoDate (cs : List Char) : Option (Int × Nat × Nat × List Char) :=
  match cs with
  | '+' :: r => (fixedDigits 6 r).bind (fun p => parseIsoMD (p.1 : Int) p.2)
  | '-' :: r =>
    (fixedDigits 6 r).bind (fun p =>
      if p.1 = 0 then none else parseIsoMD (-(p.1 : Int)) p.2)
  | r => (fixedDigits 4 r).bind (fun p => parseIsoMD (p.1 : Int) p.2)
where
  parseIsoMD (y : Int) (cs : List Char) : Option (Int × Nat × Nat × List Char) :=
    match cs with
    | '-' :: r =>
      (fixedDigits 2 r).bind (fun p =>
        match p.2 with
        | '-' :: r2 => (fixedDigits 2 r2).map (fun q => (y, p.1, q.1, q.2))
        | rest => some (y, p.1, 1, rest))
    | rest => some (y, 1, 1, rest)

/-- The *Time* production `HH:mm[:ss[.sss]]`; the fraction keeps its first
three digits (milliseconds), as the engines do.  Returns
`(hour, minute, second, millisecond, rest)`. -/
def parseIsoTime (cs : List Char) : Option (Nat × Nat × Nat × Nat × List Char) :=
  (fixedDigits 2 cs).bind (fun hp =>
    match hp.2 with
    | ':' :: r1 =>
      (fixedDigits 2 r1).bind (fun mp =>
        match mp.2 with
        | ':' :: r2 =>
          (fixedDigits 2 r2).bind (fun sp =>
            match sp.2 with
            | '.' :: r3 =>
              let ds := r3.takeWhile Char.isDigit
              if ds.isEmpty then none
              else
                let d3 := ds.take 3
                some (hp.1, mp.1, sp.1,
                  digitsVal (d3 ++ List.replicate (3 - d3.length) '0'),
                  r3.dropWhile Char.isDigit)
            | rest => some (hp.1, mp.1, sp.1, 0, rest))
        | rest => some (hp.1, mp.1, 0, 0, rest))
    | _ => none)

/-- The *TimeZoneUTCOffset* production: `Z` or `±HH:mm`; its value in
minutes east of UTC.  A date-time with no offset designator is local
time in JS; the model fixes the host timezone to UTC, so the absent
offset reads as `0`. -/
def parseIsoOffset (cs : List Char) : Option (Int × List Char) :=
  match cs with
  | 'Z' :: r => some (0, r)
  | '+' :: r => parseIsoOffTail 1 r
  | '-' :: r => parseIsoOffTail (-1) r
  | r => some (0, r)
where
  parseIsoOffTail (sgn : Int) (cs : List Char) : Option (Int × List Char) :=
    (fixedDigits 2 cs).bind (fun hp =>
      match hp.2 with
      | ':' :: r =>
        (fixedDigits 2 r).bind (fun mp =>
          if hp.1 ≤ 23 && mp.1 ≤ 59 then
            some (sgn * ((hp.1 : Int) * 60 + (mp.1 : Int)), mp.2)
          else none)
      | _ => none)

/-- `Date.parse` on a string: the ECMA Date Time String Format
`YYYY[-MM[-DD]][THH:mm[:ss[.sss]]][Z|±HH:mm]` (expanded years included),
the only format whose acceptance the spec mandates.  Out-of-range fields
and overflowing time values give NaN, as does every other string — which
is what the real parser does for the strings the analyzed code produces
from non-date data (`"null"`, `"undefined"`, `"[object Object]"`,
numerals' remainders, ...); formats beyond this one are
implementation-defined.  A date-only form is UTC per the spec; for a
date-time without offset (local time in JS) the model fixes the host
timezone to UTC. -/
def dateParseChars (cs : List Char) : JNum :=
  match parseIsoDate cs with
  | none => .nan
  | some (y, m, d, rest) =>
    if 1 ≤ m && m ≤ 12 && 1 ≤ d && d ≤ daysInMonth y m then
      match (match rest with
             | [] => some ((0, 0, 0, 0, []) : Nat × Nat × Nat × Nat × List Char)
             | 'T' :: r => parseIsoTime r
             | _ => none) with
      | none => .nan
      | some (h, mi, s, ms, rest2) =>
        match parseIsoOffset rest2 with
        | none => .nan
        | some (off, rest3) =>
          if rest3 = []
              && (h < 24 || (h = 24 && mi = 0 && s = 0 && ms = 0))
              && mi ≤ 59 && s ≤ 59 then
            let t : Int := daysFromCivil y m d * 86400000 +
              (h : Int) * 3600000 + (mi : Int) * 60000 + (s : Int) * 1000 +
              (ms : Int) - off * 60000
            if t.natAbs ≤ 8640000000000000 then .val (intFrac t) else .nan
          else .nan
    else .nan

/-- `Date.parse(v)`: the argument is converted by `ToString` first. -/
def dateParseVal (v : JSVal) : JNum :=
  dateParseChars (jsToString v).toList

/-- The time value produced by `new Date(value)`: a `Date` is copied, a
primitive that converts to a string is parsed, anything else goes through
`ToNumber`. -/
def newDateTime (v : JSVal) : JNum :=
  match v with
  | .vdate t => t
  | v =>
    match toPrimDefault v with
    | .vstr s => dateParseChars s.toList
    | p => primToNum p

/-! ### JS objects as association lists -/

/-- A JS plain object / record: an association list in insertion order.
JS objects cannot hold duplicate keys; operations read the first match. -/
abbrev Data := List (String × JSVal)

/-- Property read `d[k]`; an absent key reads as `undefined`. -/
def getV (d : Data) (k : String) : JSVal :=
  match d.find? (fun p => p.1 = k) with
  | some p => p.2
  | none => JSVal.vundef

/-- Does the object have key `k` (even with value `undefined`)? -/
def hasKey (d : Data) (k : String) : Bool :=
  d.any (fun p => p.1 = k)

/-- Property write `d[k] = v`: overwrite in place when the key exists,
append otherwise (JS insertion-order semantics). -/
def setV (d : Data) (k : String) (v : JSVal) : Data :=
  if hasKey d k then d.map (fun p => if p.1 = k then (p.1, v) else p)
  else d ++ [(k, v)]

/-- Property read on an arbitrary value (`value.$eq` and friends): only
plain objects carry the keys the analyzed code looks up. -/
def propGet (v : JSVal) (k : String) : JSVal :=
  match v with
  | .vobj fs => getV fs k
  | _ => JSVal.vundef

/-! ### `JSON.parse` model -/

/-- JSON insignificant whitespace. -/
def jsonWs (c : Char) : Bool :=
  c = ' ' || c = '\t' || c = '\n' || c = '\r'

/-- Body of a JSON string after the opening quote: returns the decoded
characters and the rest after the closing quote.  Standard escapes and
`\uXXXX` are decoded (surrogate pairs are kept as two code points; no
analyzed value depends on astral characters); unescaped control characters
and invalid escapes are a parse error. -/
def jsonStringBody : List Char → Option (List Char × List Char)
  | [] => none
  | '"' :: r => some ([], r)
  | '\\' :: r =>
    match r with
    | '"' :: r' => (jsonStringBody r').map (fun p => ('"' :: p.1, p.2))
    | '\\' :: r' => (jsonStringBody r').map (fun p => ('\\' :: p.1, p.2))
    | '/' :: r' => (jsonStringBody r').map (fun p => ('/' :: p.1, p.2))
    | 'b' :: r' => (jsonStringBody r').map (fun p => (Char.ofNat 8 :: p.1, p.2))
    | 'f' :: r' => (jsonStringBody r').map (fun p => (Char.ofNat 12 :: p.1, p.2))
    | 'n' :: r' => (jsonStringBody r').map (fun p => ('\n' :: p.1, p.2))
    | 'r' :: r' => (jsonStringBody r').map (fun p => ('\r' :: p.1, p.2))
    | 't' :: r' => (jsonStringBody r').map (fun p => ('\t' :: p.1, p.2))
    | 'u' :: h1 :: h2 :: h3 :: h4 :: r' =>
      if [h1, h2, h3, h4].all isHexDigit then
        (jsonStringBody r').map (fun p => (Char.ofNat (hexVal [h1, h2, h3, h4]) :: p.1, p.2))
      else none
    | _ => none
  | c :: r =>
    if c.toNat < 32 then none
    else (jsonStringBody r).map (fun p => (c :: p.1, p.2))

/-- A JSON number at the head of `cs` (strict JSON grammar: optional `-`,
no leading zeros, fraction and exponent each need at least one digit). -/
def jsonNumber (cs : List Char) : Option (JSVal × List Char) :=
  let (neg, cs1) :=
    match cs with
    | '-' :: r => (true, r)
    | r => (false, r)
  let (ip, r1) := cs1.span Char.isDigit
  if ip.isEmpty then none
  else if 1 < ip.length && ip.headD ' ' = '0' then none
  else
    let fracP : Option (List Char × List Char) :=
      match r1 with
      | '.' :: r =>
        let (fp, r') := r.span Char.isDigit
        if fp.isEmpty then none else some (fp, r')
      | _ => some ([], r1)
    match fracP with
    | none => none
    | some (fp, r2) =>
      let expP : Option (Int × List Char) :=
        match r2 with
        | 'e' :: r => jsonExpTail r
        | 'E' :: r => jsonExpTail r
        | _ => some (0, r2)
      match expP with
      | none => none
      | some (e, r3) =>
        let scale : Nat := 10 ^ fp.length
        let mant : Frac := mkFrac ((digitsVal ip * scale + digitsVal fp : Nat) : Int) scale
        some (.vnum (.val (fracMul (if neg then fracNeg mant else mant) (pow10 e))), r3)
where
  jsonExpTail (r : List Char) : Option (Int × List Char) :=
    let (sgn, r') :=
      match r with
      | '+' :: t => ((1 : Int), t)
      | '-' :: t => ((-1 : Int), t)
      | t => ((1 : Int), t)
    let (ds, r'') := r'.span Char.isDigit
    if ds.isEmpty then none else some (sgn * (digitsVal ds : Int), r'')

/-- Parse state of the JSON reader: reading one value, the remaining
elements of an array, or the remaining members of an object. -/
inductive JsonK where
  | value
  | elems (acc : List JSVal)
  | members (acc : List (String × JSVal))

/-- The JSON reader (`fuel` bounds the recursion; the entry point passes
more fuel than the input length, which the grammar cannot exhaust).  A
repeated object key overwrites in place, as `JSON.parse` does. -/
def jsonGo : Nat → JsonK → List Char → Option (JSVal × List Char)
  | 0, _, _ => none
  | fuel + 1, .value, cs =>
    let cs := cs.dropWhile jsonWs
    match cs with
    | 't' :: 'r' :: 'u' :: 'e' :: r => some (.vbool true, r)
    | 'f' :: 'a' :: 'l' :: 's' :: 'e' :: r => some (.vbool false, r)
    | 'n' :: 'u' :: 'l' :: 'l' :: r => some (.vnull, r)
    | '"' :: r => (jsonStringBody r).map (fun p => (.vstr (String.mk p.1), p.2))
    | '[' :: r =>
      (match r.dropWhile jsonWs with
       | ']' :: rest => some (.varr [], rest)
       | r' => jsonGo fuel (.elems []) r')
    | '{' :: r =>
      (match r.dropWhile jsonWs with
       | '}' :: rest => some (.vobj [], rest)
       | r' => jsonGo fuel (.members []) r')
    | _ => jsonNumber cs
  | fuel + 1, .elems acc, cs =>
    match jsonGo fuel .value cs with
    | none => none
    | some (v, rest) =>
      match rest.dropWhile jsonWs with
      | ',' :: r => jsonGo fuel (.elems (acc ++ [v])) r
      | ']' :: r => some (.varr (acc ++ [v]), r)
      | _ => none
  | fuel + 1, .members acc, cs =>
    match cs.dropWhile jsonWs with
    | '"' :: r =>
      (match jsonStringBody r with
       | none => none
       | some (k, rest) =>
         match rest.dropWhile jsonWs with
         | ':' :: r2 =>
           (match jsonGo fuel .value r2 with
            | none => none
            | some (v, r3) =>
              match r3.dropWhile jsonWs with
              | ',' :: r4 => jsonGo fuel (.members (setV acc (String.mk k) v)) r4
              | '}' :: r4 => some (.vobj (setV acc (String.mk k) v), r4)
              | _ => none)
         | _ => none)
    | _ => none

/-- `JSON.parse` on a string: one JSON value, then only whitespace. -/
def jsonParseStr (s : String) : Option JSVal :=
  match jsonGo (s.length + 1) .value s.toList with
  | some (v, rest) => if (rest.dropWhile jsonWs).isEmpty then some v else none
  | none => none

/-- `JSON.parse(v)`: a non-string argument is converted by `ToString`. -/
def jsonParseVal (v : JSVal) : Option JSVal :=
  jsonParseStr (jsToString v)

/-! ### Schema model (`FieldSpec`, `SchemaMap`) -/

/-- A declared default: a plain value, or a zero-argument generator invoked
per call (`typeof settings.defaultValue === 'function'`). -/
inductive DefaultV where
  | value (v : JSVal)
  | compute (f : Unit → JSVal)

/-- Evaluate a default at application time. -/
def DefaultV.eval : DefaultV → JSVal
  | .value v => v
  | .compute f => f ()

/-- One field's schema settings, as read by `utils.js` (absent settings are
`none`; numeric bounds are JS numbers, per the FieldSpec data model). -/
structure FieldSpec where
  type : Option String := none
  required : Bool := false
  defaultValue : Option DefaultV := none
  min : Option JNum := none
  max : Option JNum := none
  minLength : Option JNum := none
  maxLength : Option JNum := none

/-- A schema: field name → FieldSpec, in declaration order. -/
abbrev Schema := List (String × FieldSpec)

/-- First (only) spec for a field, if any. -/
def lookupSpec (schema : Schema) (f : String) : Option FieldSpec :=
  (schema.find? (fun p => p.1 == f)).map (fun p => p.2)

/-! ### `applyDefaults` (src/lib/utils.js lines 11–29) -/

/-- One schema entry of the `applyDefaults` walk: a field whose current
value is not `undefined` is skipped, otherwise a declared default
(generator evaluated per call) is written. -/
def applyDefaultsStep (result : Data) (fe : String × FieldSpec) : Data :=
  if (getV result fe.1).isDef then result
  else
    match fe.2.defaultValue with
    | none => result
    | some dv => setV result fe.1 dv.eval

/-- `applyDefaults(data, schema)`: starting from a copy of `data`, walk the
schema entries applying defaults to unset fields. -/
def applyDefaults (data : Data) (schema : Schema) : Data :=
  schema.foldl applyDefaultsStep data

/-! ### `validateData` (src/lib/utils.js lines 39–108) -/

/-- The type check of `validateData`'s `switch (settings.type.toLowerCase())`:
`string` accepts strings; `number` accepts numbers and anything whose
`Number(...)` conversion is not NaN; `boolean` accepts booleans and the four
literal tokens; `date` accepts `Date` values and anything `Date.parse`
accepts; any other declared type accepts everything. -/
def typeValid (ty : String) (v : JSVal) : Bool :=
  match strLower ty with
  | "string" => match v with | .vstr _ => true | _ => false
  | "number" => (match v with | .vnum _ => true | _ => false) || (toNumberVal v != .nan)
  | "boolean" =>
    match v with
    | .vbool _ => true
    | .vstr "true" => true
    | .vstr "false" => true
    | .vstr "1" => true
    | .vstr "0" => true
    | _ => false
  | "date" => (match v with | .vdate _ => true | _ => false) || (dateParseVal v != .nan)
  | _ => true

/-- `v === undefined || v === null || v === ''` (the required-field test). -/
def isMissing (v : JSVal) : Bool :=
  match v with
  | .vundef => true
  | .vnull => true
  | .vstr "" => true
  | _ => false

/-- The violation messages one schema entry contributes, in the order the
source pushes them (required, type, min, max, minLength, maxLength). -/
def fieldErrors (data : Data) (partialMode : Bool) (fe : String × FieldSpec) : List String :=
  let field := fe.1
  let settings := fe.2
  let v := getV data field
  if partialMode && !v.isDef then []
  else
    let requiredErrs :=
      if !partialMode && settings.required && isMissing v then
        ["Field '" ++ field ++ "' is required"]
      else []
    if !v.isDef then requiredErrs
    else
      let typeErrs :=
        match settings.type with
        | some ty =>
          if ty != "" && !typeValid ty v then
            ["Field '" ++ field ++ "' should be of type " ++ ty]
          else []
        | none => []
      let numErrs :=
        if settings.type == some "number" then
          let numValue := toNumberVal v
          (match settings.min with
           | some m =>
             if (JNum.ltU numValue m).getD false then
               ["Field '" ++ field ++ "' must be at least " ++ m.toDisplay]
             else []
           | none => []) ++
          (match settings.max with
           | some m =>
             if (JNum.ltU m numValue).getD false then
               ["Field '" ++ field ++ "' must be at most " ++ m.toDisplay]
             else []
           | none => [])
        else []
      let strErrs :=
        if settings.type == some "string" then
          let strValue := jsToString v
          (match settings.minLength with
           | some m =>
             if (JNum.ltU (.val (intFrac strValue.length)) m).getD false then
               ["Field '" ++ field ++ "' must be at least " ++ m.toDisplay ++ " characters"]
             else []
           | none => []) ++
          (match settings.maxLength with
           | some m =>
             if (JNum.ltU m (.val (intFrac strValue.length))).getD false then
               ["Field '" ++ field ++ "' must be at most " ++ m.toDisplay ++ " characters"]
             else []
           | none => [])
        else []
      requiredErrs ++ typeErrs ++ numErrs ++ strErrs

/-- `validateData(data, schema, { partial })`: accumulate every entry's
violations, then throw a single aggregated error, or return `true`. -/
def validateData (data : Data) (schema : Schema) (partialMode : Bool) :
    Except String Bool :=
  let errors :=
    schema.foldl (fun acc fe => acc ++ fieldErrors data partialMode fe) []
  if errors.isEmpty then .ok true
  else .error ("Validation failed: " ++ String.intercalate ", " errors)

/-! ### `_convertValueType` (src/lib/model.js lines 86–108) -/

/-- The `switch (schema.type.toLowerCase())` of `_convertValueType`:
`number` maps the empty string to `null` and parses everything else with
`parseFloat`; `boolean` is `true` exactly on `true`/`'true'`/`'1'`;
`date` wraps truthy values in `new Date(...)` and maps falsy ones to
`null`; `json` parses truthy values with `JSON.parse` (returning the raw
value on failure) and maps falsy ones to `null`; other types pass
through. -/
def convertByType (tyLower : String) (value : JSVal) : JSVal :=
  if tyLower = "number" then
    if value.isEmptyStr then .vnull else .vnum (parseFloatVal value)
  else if tyLower = "boolean" then
    .vbool
      (match value with
       | .vbool true => true
       | .vstr "true" => true
       | .vstr "1" => true
       | _ => false)
  else if tyLower = "date" then
    if value.truthy then .vdate (newDateTime value) else .vnull
  else if tyLower = "json" then
    if value.truthy then
      match jsonParseVal value with
      | some j => j
      | none => value
    else .vnull
  else value

/-- `Model#_convertValueType(field, value)`: no schema entry, no declared
type (a falsy `schema.type`, including the empty string), or a
`null`/`undefined` value passes through; otherwise convert by the declared
type. -/
def convertValueType (schema : Schema) (field : String) (value : JSVal) : JSVal :=
  match lookupSpec schema field with
  | none => value
  | some sp =>
    match sp.type with
    | none => value
    | some ty =>
      if ty = "" then value
      else if value.isNullish then value
      else convertByType (strLower ty) value

/-! ### Regular-expression engine (models `RegExp#test`)

`filterRecords` builds `new RegExp(pattern.replace(/%/g, '.*'), 'i')` and
calls `.test(...)`.  The engine below covers the constructs such translated
patterns use: literals, `.` (which, without the `s` flag, matches any
character except a line terminator), concatenation, alternation and `*`;
matching is by Brzozowski derivatives, with an inductive semantics `RMatch`
proved equivalent.  The `i` flag is modelled by lowercasing pattern
literals and input.  `any`, matching every character, expresses the
unanchored search of `test` (the padding around the match is arbitrary
text, newlines included). -/

/-- ECMA *LineTerminator*: LF, CR, LS, PS — the characters `.` does not
match without the `s` flag. -/
def isLineTerm (c : Char) : Bool :=
  c = '\n' || c = '\r' || c = Char.ofNat 0x2028 || c = Char.ofNat 0x2029

/-- Regular expressions over characters. -/
inductive RE where
  | emp
  | eps
  | lit (c : Char)
  | dot
  | any
  | seq (r₁ r₂ : RE)
  | alt (r₁ r₂ : RE)
  | star (r : RE)
deriving DecidableEq, Repr

/-- Language membership: `RMatch r s` iff `s` is in `r`'s language.  The
star rule consumes a nonempty chunk per step, which matches the same
language and admits clean inversion. -/
inductive RMatch : RE → List Char → Prop where
  | eps : RMatch .eps []
  | lit (c : Char) : RMatch (.lit c) [c]
  | dot (c : Char) (h : isLineTerm c = false) : RMatch .dot [c]
  | any (c : Char) : RMatch .any [c]
  | seq {r₁ r₂ s₁ s₂} : RMatch r₁ s₁ → RMatch r₂ s₂ → RMatch (.seq r₁ r₂) (s₁ ++ s₂)
  | altL {r₁ r₂ s} : RMatch r₁ s → RMatch (.alt r₁ r₂) s
  | altR {r₁ r₂ s} : RMatch r₂ s → RMatch (.alt r₁ r₂) s
  | starNil {r} : RMatch (.star r) []
  | starCons {r c s₁ s₂} :
      RMatch r (c :: s₁) → RMatch (.star r) s₂ → RMatch (.star r) (c :: (s₁ ++ s₂))

/-- Does `r` accept the empty string? -/
def RE.nullable : RE → Bool
  | .emp => false
  | .eps => true
  | .lit _ => false
  | .dot => false
  | .any => false
  | .seq r₁ r₂ => r₁.nullable && r₂.nullable
  | .alt r₁ r₂ => r₁.nullable || r₂.nullable
  | .star _ => true

/-- Brzozowski derivative of `r` by `c`. -/
def RE.deriv : RE → Char → RE
  | .emp, _ => .emp
  | .eps, _ => .emp
  | .lit c, d => if c = d then .eps else .emp
  | .dot, d => if isLineTerm d then .emp else .eps
  | .any, _ => .eps
  | .seq r₁ r₂, d =>
    if r₁.nullable then .alt (.seq (r₁.deriv d) r₂) (r₂.deriv d)
    else .seq (r₁.deriv d) r₂
  | .alt r₁ r₂, d => .alt (r₁.deriv d) (r₂.deriv d)
  | .star r, d => .seq (r.deriv d) (.star r)

/-- Anchored match by iterated derivatives. -/
def reMatch (r : RE) (s : List Char) : Bool :=
  (s.foldl RE.deriv r).nullable

/-- `RegExp#test`: unanchored — some substring matches; equivalently the
expression padded with arbitrary text on both sides matches the whole
input. -/
def reTest (r : RE) (s : List Char) : Bool :=
  reMatch (.seq (.star .any) (.seq r (.star .any))) s

theorem rmatch_emp_iff {s : List Char} : RMatch .emp s ↔ False := by
  constructor
  · intro h; cases h
  · intro h; cases h

theorem rmatch_eps_iff {s : List Char} : RMatch .eps s ↔ s = [] := by
  constructor
  · intro h; cases h; rfl
  · rintro rfl; exact .eps

theorem rmatch_lit_iff {c : Char} {s : List Char} : RMatch (.lit c) s ↔ s = [c] := by
  constructor
  · intro h; cases h; rfl
  · rintro rfl; exact .lit c

theorem rmatch_dot_iff {s : List Char} :
    RMatch .dot s ↔ ∃ c, s = [c] ∧ isLineTerm c = false := by
  constructor
  · intro h; cases h with | dot c hc => exact ⟨c, rfl, hc⟩
  · rintro ⟨c, rfl, hc⟩; exact .dot c hc

theorem rmatch_any_iff {s : List Char} : RMatch .any s ↔ ∃ c, s = [c] := by
  constructor
  · intro h; cases h with | any c => exact ⟨c, rfl⟩
  · rintro ⟨c, rfl⟩; exact .any c

theorem rmatch_seq_iff {r₁ r₂ : RE} {s : List Char} :
    RMatch (.seq r₁ r₂) s ↔ ∃ s₁ s₂, s = s₁ ++ s₂ ∧ RMatch r₁ s₁ ∧ RMatch r₂ s₂ := by
  constructor
  · intro h
    cases h with
    | seq h₁ h₂ => exact ⟨_, _, rfl, h₁, h₂⟩
  · rintro ⟨s₁, s₂, rfl, h₁, h₂⟩
    exact .seq h₁ h₂

theorem rmatch_alt_iff {r₁ r₂ : RE} {s : List Char} :
    RMatch (.alt r₁ r₂) s ↔ RMatch r₁ s ∨ RMatch r₂ s := by
  constructor
  · intro h
    cases h with
    | altL h => exact Or.inl h
    | altR h => exact Or.inr h
  · rintro (h | h)
    · exact .altL h
    · exact .altR h

theorem rmatch_star_iff {r : RE} {s : List Char} :
    RMatch (.star r) s ↔
      s = [] ∨ ∃ c s₁ s₂, s = c :: (s₁ ++ s₂) ∧ RMatch r (c :: s₁) ∧ RMatch (.star r) s₂ := by
  constructor
  · intro h
    cases h with
    | starNil => exact Or.inl rfl
    | starCons h₁ h₂ => exact Or.inr ⟨_, _, _, rfl, h₁, h₂⟩
  · rintro (rfl | ⟨c, s₁, s₂, rfl, h₁, h₂⟩)
    · exact .starNil
    · exact .starCons h₁ h₂

theorem nullable_iff_rmatch_nil (r : RE) : r.nullable = true ↔ RMatch r [] := by
  induction r with
  | emp => simp [RE.nullable, rmatch_emp_iff]
  | eps => simp [RE.nullable, rmatch_eps_iff]
  | lit c => simp [RE.nullable, rmatch_lit_iff]
  | dot => simp [RE.nullable, rmatch_dot_iff]
  | any => simp [RE.nullable, rmatch_any_iff]
  | seq r₁ r₂ ih₁ ih₂ =>
    simp only [RE.nullable, Bool.and_eq_true, ih₁, ih₂, rmatch_seq_iff]
    constructor
    · rintro ⟨h₁, h₂⟩
      exact ⟨[], [], rfl, h₁, h₂⟩
    · rintro ⟨s₁, s₂, hs, h₁, h₂⟩
      rcases List.append_eq_nil.mp hs.symm with ⟨rfl, rfl⟩
      exact ⟨h₁, h₂⟩
  | alt r₁ r₂ ih₁ ih₂ =>
    simp [RE.nullable, rmatch_alt_iff, ih₁, ih₂]
  | star r ih =>
    simp only [RE.nullable, true_iff]
    exact .starNil

theorem rmatch_deriv_iff (r : RE) (c : Char) :
    ∀ s, RMatch (r.deriv c) s ↔ RMatch r (c :: s) := by
  induction r with
  | emp => intro s; simp [RE.deriv, rmatch_emp_iff]
  | eps => intro s; simp [RE.deriv, rmatch_emp_iff, rmatch_eps_iff]
  | lit d =>
    intro s
    simp only [RE.deriv]
    by_cases hc : d = c
    · subst hc
      simp [rmatch_eps_iff, rmatch_lit_iff]
    · simp [hc, rmatch_emp_iff, rmatch_lit_iff, Ne.symm hc]
  | dot =>
    intro s
    simp only [RE.deriv]
    by_cases hterm : isLineTerm c = true
    · rw [if_pos hterm]
      simp only [rmatch_emp_iff, rmatch_dot_iff, false_iff]
      rintro ⟨d, hd, hdf⟩
      injection hd with h1 h2
      subst h1
      rw [hterm] at hdf
      exact Bool.noConfusion hdf
    · have hterm' : isLineTerm c = false := by simpa using hterm
      rw [if_neg hterm]
      simp only [rmatch_eps_iff, rmatch_dot_iff]
      constructor
      · rintro rfl
        exact ⟨c, rfl, hterm'⟩
      · rintro ⟨d, hd, -⟩
        injection hd
  | any =>
    intro s
    simp only [RE.deriv, rmatch_eps_iff, rmatch_any_iff]
    constructor
    · rintro rfl
      exact ⟨c, rfl⟩
    · rintro ⟨d, hd⟩
      injection hd
  | seq r₁ r₂ ih₁ ih₂ =>
    intro s
    simp only [RE.deriv]
    by_cases hn : r₁.nullable
    · simp only [hn, if_true, rmatch_alt_iff, rmatch_seq_iff]
      constructor
      · rintro (⟨s₁, s₂, rfl, h₁, h₂⟩ | h₂)
        · exact ⟨c :: s₁, s₂, rfl, (ih₁ s₁).mp h₁, h₂⟩
        · exact ⟨[], c :: s, rfl, (nullable_iff_rmatch_nil r₁).mp hn, (ih₂ s).mp h₂⟩
      · rintro ⟨s₁, s₂, hs, h₁, h₂⟩
        cases s₁ with
        | nil =>
          right
          simp only [List.nil_append] at hs
          exact (ih₂ s).mpr (hs ▸ h₂)
        | cons a t =>
          left
          rw [List.cons_append] at hs
          injection hs with h1 h2
          subst h1; subst h2
          exact ⟨t, s₂, rfl, (ih₁ t).mpr h₁, h₂⟩
    · simp only [hn, if_false, rmatch_seq_iff, Bool.false_eq_true]
      constructor
      · rintro ⟨s₁, s₂, rfl, h₁, h₂⟩
        exact ⟨c :: s₁, s₂, rfl, (ih₁ s₁).mp h₁, h₂⟩
      · rintro ⟨s₁, s₂, hs, h₁, h₂⟩
        cases s₁ with
        | nil =>
          exact absurd ((nullable_iff_rmatch_nil r₁).mpr h₁) (by simpa using hn)
        | cons a t =>
          rw [List.cons_append] at hs
          injection hs with h1 h2
          subst h1; subst h2
          exact ⟨t, s₂, rfl, (ih₁ t).mpr h₁, h₂⟩
  | alt r₁ r₂ ih₁ ih₂ =>
    intro s
    simp [RE.deriv, rmatch_alt_iff, ih₁ s, ih₂ s]
  | star r ih =>
    intro s
    simp only [RE.deriv, rmatch_seq_iff]
    constructor
    · rintro ⟨s₁, s₂, rfl, h₁, h₂⟩
      exact .starCons ((ih s₁).mp h₁) h₂
    · intro h
      rcases rmatch_star_iff.mp h with h0 | ⟨d, s₁, s₂, hs, h₁, h₂⟩
      · cases h0
      · injection hs with h1 h2
        subst h1; subst h2
        exact ⟨s₁, s₂, rfl, (ih s₁).mpr h₁, h₂⟩

/-- The derivative matcher decides `RMatch`. -/
theorem reMatch_iff_rmatch (r : RE) (s : List Char) :
    reMatch r s = true ↔ RMatch r s := by
  induction s generalizing r with
  | nil => simpa [reMatch] using nullable_iff_rmatch_nil r
  | cons c t ih =>
    have : reMatch r (c :: t) = reMatch (r.deriv c) t := by
      simp [reMatch, List.foldl_cons]
    rw [this, ih (r.deriv c)]
    exact rmatch_deriv_iff r c t

/-! ### `$like` translation -/

/-- Characters that are metacharacters for `RegExp` (beyond `.`, which the
engine models).  A `$like` pattern containing one builds a regex whose
constructs are outside this model. -/
def regexMeta (c : Char) : Bool :=
  c = '\\' || c = '^' || c = '$' || c = '*' || c = '+' || c = '?' ||
  c = '(' || c = ')' || c = '[' || c = ']' || c = '{' || c = '}' || c = '|'

/-- The regex built by `new RegExp(pattern.replace(/%/g, '.*'), 'i')`:
`%` becomes `.*` (zero or more of any character except a line
terminator, since the `s` flag is absent), `.` keeps its regex meaning,
any other non-metacharacter matches itself (lowercased here to model the
`i` flag).  `none` when the pattern uses regex constructs outside this
model. -/
def compileLikeChars : List Char → Option RE
  | [] => some .eps
  | c :: r =>
    if c = '%' then (compileLikeChars r).map (fun t => .seq (.star .dot) t)
    else if c = '.' then (compileLikeChars r).map (fun t => .seq .dot t)
    else if regexMeta c then none
    else (compileLikeChars r).map (fun t => .seq (.lit c.toLower) t)

/-- The `$like` test: compile the pattern, then run the case-insensitive
unanchored `test` against the input string. -/
def likeTest (pat input : String) : Option Bool :=
  (compileLikeChars pat.toList).map (fun r => reTest r (strLower input).toList)

/-! ### `filterRecords` (src/lib/utils.js lines 116–139) -/

/-- Criteria: field name → condition value, as a JS object. -/
abbrev Criteria := List (String × JSVal)

/-- One condition against one stored value, following the source's branch
order.  `some b` is the boolean the callback produces; `none` models a
thrown `TypeError` (`$in`/`$nin` bound that is not an array, `$like` bound
that is not a string) or a `$like` regex outside the model's constructs. -/
def evalCond (rv cond : JSVal) : Option Bool :=
  if cond.isObjectType then
    if (propGet cond "$eq").isDef then some (jsEq rv (propGet cond "$eq"))
    else if (propGet cond "$ne").isDef then some (!jsEq rv (propGet cond "$ne"))
    else if (propGet cond "$gt").isDef then
      some (jsGtB (.vnum (parseFloatVal rv)) (propGet cond "$gt"))
    else if (propGet cond "$gte").isDef then
      some (jsGeB (.vnum (parseFloatVal rv)) (propGet cond "$gte"))
    else if (propGet cond "$lt").isDef then
      some (jsLtB (.vnum (parseFloatVal rv)) (propGet cond "$lt"))
    else if (propGet cond "$lte").isDef then
      some (jsLeB (.vnum (parseFloatVal rv)) (propGet cond "$lte"))
    else if (propGet cond "$in").isDef then
      match propGet cond "$in" with
      | .varr xs => some (xs.any (fun x => sameValueZero x rv))
      | _ => none
    else if (propGet cond "$nin").isDef then
      match propGet cond "$nin" with
      | .varr xs => some (!xs.any (fun x => sameValueZero x rv))
      | _ => none
    else if (propGet cond "$like").isDef then
      match propGet cond "$like" with
      | .vstr pat => likeTest pat (jsToString rv)
      | _ => none
    else some (jsEq rv cond)
  else some (jsEq rv cond)

/-- `Object.entries(criteria).every(...)` for one record: conditions are
evaluated left to right, stopping at the first `false` (so a later
erroring condition is not reached, as with `Array#every`). -/
def recMatches (record : Data) : Criteria → Option Bool
  | [] => some true
  | (key, cond) :: rest =>
    match evalCond (getV record key) cond with
    | none => none
    | some false => some false
    | some true => recMatches record rest

/-- `filterRecords(records, criteria)`: keep the records whose callback
returns true; a thrown error propagates (`none`). -/
def filterRecords : List Data → Criteria → Option (List Data)
  | [], _ => some []
  | r :: rs, criteria =>
    match recMatches r criteria with
    | none => none
    | some b =>
      match filterRecords rs criteria with
      | none => none
      | some tl => some (if b then r :: tl else tl)

/-! ### `sortRecords` (src/lib/utils.js lines 147–167) -/

/-- Sort criteria: field → direction string, in iteration order. -/
abbrev OrderBy := List (String × String)

/-- `x || ''` as applied to the compared values. -/
def jsOrEmpty (v : JSVal) : JSVal :=
  if v.truthy then v else .vstr ""

/-- `String#localeCompare`, modelled as code-point lexicographic comparison
(locale collation tables are environment-dependent; only the sign is
consumed). -/
def strCmp (s t : String) : JNum :=
  match compare s t with
  | .lt => .val (intFrac (-1))
  | .eq => .val (intFrac 0)
  | .gt => .val (intFrac 1)

/-- The comparator's per-key `diff`, before the direction multiplier: a
numeric difference when both stored values `parseFloat` to non-NaN, else a
string comparison of the values with falsy values coerced to `''`. -/
def rawKeyDiff (a b : Data) (field : String) : JNum :=
  let av := getV a field
  let bv := getV b field
  if parseFloatVal av != .nan && parseFloatVal bv != .nan then
    JNum.sub (parseFloatVal av) (parseFloatVal bv)
  else
    strCmp (jsToString (jsOrEmpty av)) (jsToString (jsOrEmpty bv))

/-- `diff * multiplier`: negate for `desc` (any other direction string
keeps the sign). -/
def applyDir (d : JNum) (dir : String) : JNum :=
  if strLower dir = "desc" then d.neg else d

/-- The whole comparator of `sortRecords`: walk the `orderBy` entries and
return the first `diff !== 0`, direction applied; `0` when every key ties. -/
def cmpRecords (orderBy : OrderBy) (a b : Data) : JNum :=
  match orderBy with
  | [] => .val (intFrac 0)
  | (field, dir) :: rest =>
    let diff := rawKeyDiff a b field
    if !diff.isZero then applyDir diff dir else cmpRecords rest a b

/-- Stable insertion of `x` (originally before every element of the list)
per the comparator's SortCompare sign. -/
def sortInsert (cmp : Data → Data → JNum) (x : Data) : List Data → List Data
  | [] => [x]
  | y :: ys =>
    if (cmp x y).sortSign ≤ 0 then x :: y :: ys
    else y :: sortInsert cmp x ys

/-- `sortRecords(records, orderBy)`: `[...records].sort(comparator)` —
a stable sort (ES2019) modelled by stable insertion sort. -/
def sortRecords (records : List Data) (orderBy : OrderBy) : List Data :=
  records.foldr (sortInsert (cmpRecords orderBy)) []

/-! ### `applyQueryOptions` (src/lib/utils.js lines 175–195) -/

/-- Query options; `limit`/`offset` are JS integers per the QueryOptions
data model (`limit?: int, offset?: int`). -/
structure QueryOpts where
  whereC : Option Criteria := none
  orderBy : Option OrderBy := none
  limit : Option Int := none
  offset : Option Int := none

/-- `Array#slice(start, stop)` with JS index normalization (negative
indices count from the end; out-of-range indices clamp). -/
def jsSlice (l : List Data) (start stop : Int) : List Data :=
  let n : Int := l.length
  let s := if start < 0 then max (n + start) 0 else min start n
  let e := if stop < 0 then max (n + stop) 0 else min stop n
  (l.drop s.toNat).take (e - s).toNat

/-- `applyQueryOptions(records, options)`: filter when `where` is present,
then sort when `orderBy` is present, then slice `limit` items from
`offset || 0` when `limit` is present. -/
def applyQueryOptions (records : List Data) (options : QueryOpts) :
    Option (List Data) :=
  match (match options.whereC with
         | none => some records
         | some w => filterRecords records w) with
  | none => none
  | some r1 =>
    let r2 :=
      match options.orderBy with
      | none => r1
      | some ob => sortRecords r1 ob
    some
      (match options.limit with
       | none => r2
       | some lim =>
         jsSlice r2 (options.offset.getD 0) (options.offset.getD 0 + lim))

/-- The filter stage in isolation. -/
def filterStage (options : QueryOpts) (rs : List Data) : Option (List Data) :=
  match options.whereC with
  | none => some rs
  | some w => filterRecords rs w

/-- The sort stage in isolation. -/
def sortStage (options : QueryOpts) (rs : List Data) : List Data :=
  match options.orderBy with
  | none => rs
  | some ob => sortRecords rs ob

/-- The pagination stage in isolation. -/
def sliceStage (options : QueryOpts) (rs : List Data) : List Data :=
  match options.limit with
  | none => rs
  | some lim => jsSlice rs (options.offset.getD 0) (options.offset.getD 0 + lim)

/-! ## Theorems -/

/-- Is the value a JS number (`typeof v === 'number'`)? -/
def isNum : JSVal → Bool
  | .vnum _ => true
  | _ => false

theorem convertValueType_no_spec {schema : Schema} {field : String} (v : JSVal)
    (h : lookupSpec schema field = none) :
    convertValueType schema field v = v := by
  simp [convertValueType, h]

theorem convertValueType_no_type {schema : Schema} {field : String} {sp : FieldSpec} (v : JSVal)
    (h : lookupSpec schema field = some sp) (hty : sp.type = none) :
    convertValueType schema field v = v := by
  simp [convertValueType, h, hty]

theorem convertValueType_empty_type {schema : Schema} {field : String} {sp : FieldSpec}
    {ty : String} (v : JSVal)
    (h : lookupSpec schema field = some sp) (hty : sp.type = some ty) (he : ty = "") :
    convertValueType schema field v = v := by
  simp [convertValueType, h, hty, he]

theorem convertValueType_nullish {schema : Schema} {field : String} {sp : FieldSpec}
    {ty : String} (v : JSVal)
    (h : lookupSpec schema field = some sp) (hty : sp.type = some ty)
    (hv : v.isNullish = true) :
    convertValueType schema field v = v := by
  by_cases he : ty = "" <;> simp [convertValueType, h, hty, he, hv]

theorem convertValueType_main {schema : Schema} {field : String} {sp : FieldSpec}
    {ty : String} (v : JSVal)
    (h : lookupSpec schema field = some sp) (hty : sp.type = some ty)
    (he : ty ≠ "") (hv : v.isNullish = false) :
    convertValueType schema field v = convertByType (strLower ty) v := by
  simp [convertValueType, h, hty, he, hv]

/-- C1, counterexample: with a `json`-typed field, coercing the raw cell
`"0"` yields the number `0`, but coercing that result again yields `null`
(`0` is falsy, and the `json` branch maps falsy values to `null`), so
coercion is not idempotent for `json`. -/
theorem C1_counterexample :
    convertValueType [("j", { type := some "json" })] "j" (.vstr "0") = .vnum (.val (intFrac 0))
    ∧ convertValueType [("j", { type := some "json" })] "j"
        (convertValueType [("j", { type := some "json" })] "j" (.vstr "0")) = .vnull
    ∧ JSVal.vnum (.val (intFrac 0)) ≠ JSVal.vnull := by
  refine ⟨rfl, rfl, fun h => ?_⟩
  exact JSVal.noConfusion h

/-- C1 (amended): type coercion is idempotent for every field whose
declared type is not `json` — for `number`, `boolean`, `date`, `string`,
unknown types, untyped fields and fields absent from the schema,
`coerce(field, coerce(field, raw, schema), schema) = coerce(field, raw,
schema)`; for `json` it can differ (see the counterexample). -/
theorem C1_coerce_idempotent (schema : Schema) (field : String) (value : JSVal)
    (hjson : ∀ sp, lookupSpec schema field = some sp →
      ∀ ty, sp.type = some ty → strLower ty ≠ "json") :
    convertValueType schema field (convertValueType schema field value) =
      convertValueType schema field value := by
  cases hls : lookupSpec schema field with
  | none =>
    rw [convertValueType_no_spec value hls, convertValueType_no_spec value hls]
  | some sp =>
    cases hty : sp.type with
    | none =>
      rw [convertValueType_no_type value hls hty, convertValueType_no_type value hls hty]
    | some ty =>
      have hj : strLower ty ≠ "json" := hjson sp hls ty hty
      by_cases he : ty = ""
      · rw [convertValueType_empty_type value hls hty he,
          convertValueType_empty_type value hls hty he]
      · by_cases hnl : value.isNullish = true
        · rw [convertValueType_nullish value hls hty hnl,
            convertValueType_nullish value hls hty hnl]
        · rw [convertValueType_main value hls hty he (by simpa using hnl)]
          by_cases h1 : strLower ty = "number"
          · by_cases hes : value.isEmptyStr = true
            · have hin : convertByType (strLower ty) value = .vnull := by
                simp [convertByType, h1, hes]
              rw [hin]
              exact convertValueType_nullish _ hls hty rfl
            · have hin : convertByType (strLower ty) value = .vnum (parseFloatVal value) := by
                simp [convertByType, h1, hes]
              rw [hin, convertValueType_main (JSVal.vnum (parseFloatVal value)) hls hty he rfl]
              simp [convertByType, h1, JSVal.isEmptyStr, parseFloatVal]
          · by_cases h2 : strLower ty = "boolean"
            · have hin : ∃ b, convertByType (strLower ty) value = .vbool b := by
                simp only [convertByType, h1, if_false, h2, if_true]
                exact ⟨_, rfl⟩
              rcases hin with ⟨b, hin⟩
              rw [hin, convertValueType_main (JSVal.vbool b) hls hty he rfl]
              cases b <;> simp [convertByType, h1, h2]
            · by_cases h3 : strLower ty = "date"
              · by_cases htr : value.truthy = true
                · have hin : convertByType (strLower ty) value = .vdate (newDateTime value) := by
                    simp [convertByType, h1, h2, h3, htr]
                  rw [hin, convertValueType_main (JSVal.vdate (newDateTime value)) hls hty he rfl]
                  simp [convertByType, h1, h2, h3, JSVal.truthy, newDateTime]
                · have hin : convertByType (strLower ty) value = .vnull := by
                    simp [convertByType, h1, h2, h3, htr]
                  rw [hin]
                  exact convertValueType_nullish _ hls hty rfl
              · have hin : convertByType (strLower ty) value = value := by
                  simp [convertByType, h1, h2, h3, hj]
                rw [hin, convertValueType_main value hls hty he (by simpa using hnl), hin]

/-- C1 witness: a concrete non-json schema where idempotence is observed. -/
theorem C1_witness :
    convertValueType [("n", { type := some "number" })] "n"
        (convertValueType [("n", { type := some "number" })] "n" (.vstr "3.5")) =
      convertValueType [("n", { type := some "number" })] "n" (.vstr "3.5") :=
  C1_coerce_idempotent [("n", { type := some "number" })] "n" (.vstr "3.5")
    (by intro sp hsp ty hty
        simp only [lookupSpec, List.find?, Option.map] at hsp
        rw [show sp = { type := some "number" } from by
              cases hsp' : (("n" : String) == "n") <;> simp [hsp'] at hsp <;> simp [hsp]] at hty
        simp at hty
        subst hty
        decide)

/-- An `evalCond` against an object-typed condition carrying none of the
nine recognized operator keys falls through to the source's final
`record[key] == value` branch: loose equality against the condition object
itself. -/
theorem evalCond_no_ops (rv cond : JSVal) (hobj : cond.isObjectType = true)
    (hops : ∀ k ∈ ["$eq", "$ne", "$gt", "$gte", "$lt", "$lte", "$in", "$nin", "$like"],
      (propGet cond k).isDef = false) :
    evalCond rv cond = some (jsEq rv cond) := by
  have h1 := hops "$eq" (by simp)
  have h2 := hops "$ne" (by simp)
  have h3 := hops "$gt" (by simp)
  have h4 := hops "$gte" (by simp)
  have h5 := hops "$lt" (by simp)
  have h6 := hops "$lte" (by simp)
  have h7 := hops "$in" (by simp)
  have h8 := hops "$nin" (by simp)
  have h9 := hops "$like" (by simp)
  simp [evalCond, hobj, h1, h2, h3, h4, h5, h6, h7, h8, h9]

/-- C2, counterexample: a condition object with no recognized operator key
does *not* exclude every record — the fall-through loose equality can hold,
e.g. when the stored value is the string `"[object Object]"` (the
condition object's string conversion).  The filter keeps that record. -/
theorem C2_counterexample :
    filterRecords [[("x", .vstr "[object Object]")]]
        [("x", .vobj [("$foo", .vnum (.val (intFrac 1)))])] =
      some [[("x", .vstr "[object Object]")]]
    ∧ [[("x", JSVal.vstr "[object Object]")]] ≠ ([] : List Data) := by
  exact ⟨rfl, by simp⟩

/-- C2 (amended): a field condition object containing none of the
recognized operator keys (`$eq,$ne,$gt,$gte,$lt,$lte,$in,$nin,$like`) is
evaluated as the source's plain-equality fallback: a record is kept iff its
stored value is loosely equal (`==`) to the condition object itself — which
excludes records except in corner cases such as the stored string
`"[object Object]"` — and no error is raised. -/
theorem C2_unrecognized_operator (records : List Data) (key : String) (cond : JSVal)
    (hobj : cond.isObjectType = true)
    (hops : ∀ k ∈ ["$eq", "$ne", "$gt", "$gte", "$lt", "$lte", "$in", "$nin", "$like"],
      (propGet cond k).isDef = false) :
    filterRecords records [(key, cond)] =
      some (records.filter (fun r => jsEq (getV r key) cond)) := by
  induction records with
  | nil => rfl
  | cons r rs ih =>
    have he := evalCond_no_ops (getV r key) cond hobj hops
    have hrm : recMatches r [(key, cond)] = some (jsEq (getV r key) cond) := by
      simp only [recMatches, he]
      cases jsEq (getV r key) cond <;> rfl
    simp only [filterRecords, hrm, ih, List.filter_cons]

/-- C2 witness: a record whose stored value is not loosely equal to the
operator-free condition object is excluded without error. -/
theorem C2_witness :
    filterRecords [[("x", .vstr "a")]] [("x", .vobj [("$foo", .vnum (.val (intFrac 1)))])] =
      some [] :=
  (C2_unrecognized_operator [[("x", .vstr "a")]] "x"
      (.vobj [("$foo", .vnum (.val (intFrac 1)))]) rfl (by decide)).trans rfl

theorem isDef_vundef : JSVal.vundef.isDef = false := rfl

theorem isObjectType_vobj (fs : List (String × JSVal)) :
    (JSVal.vobj fs).isObjectType = true := rfl

/-- `<` with a number on the right only converts the left side to a number. -/
theorem jsLtU_vnum_right (x : JSVal) (p : JNum) :
    jsLtU x (.vnum p) = JNum.ltU (toNumberVal x) p := by
  cases x <;> rfl

/-- `<` with a number on the left only converts the right side to a number. -/
theorem jsLtU_vnum_left (y : JSVal) (p : JNum) :
    jsLtU (.vnum p) y = JNum.ltU p (toNumberVal y) := by
  cases y <;> rfl

theorem ltU_nan_right (x : JNum) : JNum.ltU x .nan = none := by
  cases x <;> rfl

theorem ltU_nan_left (x : JNum) : JNum.ltU .nan x = none := by
  cases x <;> rfl

/-- C3, counterexample: with condition `{a: {$gt: ""}}` on the record
`{a: "5"}`, the bound `""` parses to NaN under `parseFloat`, so the claim
says the comparison is false and the record excluded — but the source
compares `parseFloat("5") > ""` and the relational operator converts the
bound by `ToNumber` (`"" → 0`), so `5 > 0` holds and the record is kept. -/
theorem C3_counterexample :
    filterRecords [[("a", .vstr "5")]] [("a", .vobj [("$gt", .vstr "")])] =
      some [[("a", .vstr "5")]]
    ∧ parseFloatVal (.vstr "") = .nan
    ∧ toNumberVal (.vstr "") = .val (intFrac 0) :=
  ⟨rfl, rfl, rfl⟩

/-- C3 (amended): for `$gt/$gte/$lt/$lte` the source parses only the
*stored* value with `parseFloat`; the bound is converted by the relational
operator's standard `ToNumber` conversion (so e.g. the bound `""` converts
to `0`, not NaN).  Whenever the stored value parses to NaN or the bound
converts to NaN, the comparison is false and the record is excluded, with
no error. -/
theorem C3_relational_conversion (rv bound : JSVal) (hb : bound.isDef = true) :
    (evalCond rv (.vobj [("$gt", bound)]) = some (jsGtB (.vnum (parseFloatVal rv)) bound)
      ∧ evalCond rv (.vobj [("$gte", bound)]) = some (jsGeB (.vnum (parseFloatVal rv)) bound)
      ∧ evalCond rv (.vobj [("$lt", bound)]) = some (jsLtB (.vnum (parseFloatVal rv)) bound)
      ∧ evalCond rv (.vobj [("$lte", bound)]) = some (jsLeB (.vnum (parseFloatVal rv)) bound))
    ∧ (parseFloatVal rv = .nan ∨ toNumberVal bound = .nan →
        evalCond rv (.vobj [("$gt", bound)]) = some false
        ∧ evalCond rv (.vobj [("$gte", bound)]) = some false
        ∧ evalCond rv (.vobj [("$lt", bound)]) = some false
        ∧ evalCond rv (.vobj [("$lte", bound)]) = some false) := by
  have hgt : evalCond rv (.vobj [("$gt", bound)]) =
      some (jsGtB (.vnum (parseFloatVal rv)) bound) := by
    simp [evalCond, propGet, getV, hb, isDef_vundef, isObjectType_vobj]
  have hgte : evalCond rv (.vobj [("$gte", bound)]) =
      some (jsGeB (.vnum (parseFloatVal rv)) bound) := by
    simp [evalCond, propGet, getV, hb, isDef_vundef, isObjectType_vobj]
  have hlt : evalCond rv (.vobj [("$lt", bound)]) =
      some (jsLtB (.vnum (parseFloatVal rv)) bound) := by
    simp [evalCond, propGet, getV, hb, isDef_vundef, isObjectType_vobj]
  have hlte : evalCond rv (.vobj [("$lte", bound)]) =
      some (jsLeB (.vnum (parseFloatVal rv)) bound) := by
    simp [evalCond, propGet, getV, hb, isDef_vundef, isObjectType_vobj]
  refine ⟨⟨hgt, hgte, hlt, hlte⟩, fun hnan => ?_⟩
  have hfour : jsGtB (.vnum (parseFloatVal rv)) bound = false
      ∧ jsGeB (.vnum (parseFloatVal rv)) bound = false
      ∧ jsLtB (.vnum (parseFloatVal rv)) bound = false
      ∧ jsLeB (.vnum (parseFloatVal rv)) bound = false := by
    rcases hnan with hn | hn
    · rw [hn]
      refine ⟨?_, ?_, ?_, ?_⟩ <;>
        simp [jsGtB, jsGeB, jsLtB, jsLeB, jsLtU_vnum_right, jsLtU_vnum_left,
          ltU_nan_right, ltU_nan_left]
    · refine ⟨?_, ?_, ?_, ?_⟩ <;>
        simp [jsGtB, jsGeB, jsLtB, jsLeB, jsLtU_vnum_right, jsLtU_vnum_left,
          hn, ltU_nan_right, ltU_nan_left]
  exact ⟨hgt.trans (by rw [hfour.1]), hgte.trans (by rw [hfour.2.1]),
    hlt.trans (by rw [hfour.2.2.1]), hlte.trans (by rw [hfour.2.2.2])⟩

/-- C3 witness: a stored value that parses to NaN makes `$gt` false. -/
theorem C3_witness :
    evalCond (.vstr "abc") (.vobj [("$gt", .vnum (.val (intFrac 3)))]) = some false :=
  ((C3_relational_conversion (.vstr "abc") (.vnum (.val (intFrac 3))) rfl).2 (Or.inl rfl)).1

/-! ### C4: `$like` semantics -/

/-- The character list of a `%`-joined pattern built from literal
segments. -/
def joinPercent : List (List Char) → List Char
  | [] => []
  | [s] => s
  | s :: rest => s ++ '%' :: joinPercent rest

/-- A chain of (lowercased) literal characters in front of a
continuation regex. -/
def litChain : List Char → RE → RE
  | [], k => k
  | c :: cs, k => .seq (.lit c.toLower) (litChain cs k)

/-- The regex the source builds from a `%`-joined pattern of literal
segments. -/
def segsRE : List (List Char) → RE
  | [] => .eps
  | [seg] => litChain seg .eps
  | seg :: rest => litChain seg (.seq (.star .dot) (segsRE rest))

/-- The claim's LIKE reading: the given segments occur in the string, in
order, with arbitrary gaps before, between and after. -/
def ChunksIn : List (List Char) → List Char → Prop
  | [], _ => True
  | seg :: rest, s => ∃ pre suf, s = pre ++ seg ++ suf ∧ ChunksIn rest suf

theorem compileLike_append (s rest : List Char)
    (hs : ∀ c ∈ s, regexMeta c = false ∧ c ≠ '%' ∧ c ≠ '.') :
    compileLikeChars (s ++ rest) = (compileLikeChars rest).map (litChain s) := by
  induction s with
  | nil =>
    show compileLikeChars rest = (compileLikeChars rest).map (litChain [])
    cases h : compileLikeChars rest <;> simp [litChain, h]
  | cons c cs ih =>
    have hc := hs c (by simp)
    have hcs : ∀ x ∈ cs, regexMeta x = false ∧ x ≠ '%' ∧ x ≠ '.' :=
      fun x hx => hs x (by simp [hx])
    have hstep : compileLikeChars (c :: (cs ++ rest)) =
        (compileLikeChars (cs ++ rest)).map (fun t => .seq (.lit c.toLower) t) := by
      rw [compileLikeChars]
      rw [if_neg hc.2.1]
      rw [if_neg hc.2.2]
      rw [if_neg (by simp [hc.1])]
    rw [List.cons_append, hstep, ih hcs]
    cases h : compileLikeChars rest <;> simp [litChain, h]

theorem compileLike_joinPercent (segs : List (List Char))
    (hs : ∀ seg ∈ segs, ∀ c ∈ seg, regexMeta c = false ∧ c ≠ '%' ∧ c ≠ '.') :
    compileLikeChars (joinPercent segs) = some (segsRE segs) := by
  induction segs with
  | nil => rfl
  | cons s rest ih =>
    cases rest with
    | nil =>
      have h := compileLike_append s [] (hs s (by simp))
      rw [List.append_nil] at h
      exact h
    | cons s' rest' =>
      have ih' := ih (fun seg hseg c hc => hs seg (by simp [hseg]) c hc)
      have happ := compileLike_append s ('%' :: joinPercent (s' :: rest')) (hs s (by simp))
      have hin : compileLikeChars ('%' :: joinPercent (s' :: rest')) =
          some (.seq (.star .dot) (segsRE (s' :: rest'))) := by
        rw [compileLikeChars, if_pos rfl, ih']
        rfl
      show compileLikeChars (s ++ '%' :: joinPercent (s' :: rest')) =
        some (segsRE (s :: s' :: rest'))
      rw [happ, hin]
      rfl

theorem rmatch_starAny (s : List Char) : RMatch (.star .any) s := by
  induction s with
  | nil => exact .starNil
  | cons c t ih =>
    have h := RMatch.starCons (RMatch.any c) ih
    simpa using h

theorem rmatch_starDot (s : List Char) (hs : ∀ c ∈ s, isLineTerm c = false) :
    RMatch (.star .dot) s := by
  induction s with
  | nil => exact .starNil
  | cons c t ih =>
    have h := RMatch.starCons (RMatch.dot c (hs c (by simp)))
      (ih (fun d hd => hs d (by simp [hd])))
    simpa using h

theorem starDot_chars_len :
    ∀ (n : Nat) (s : List Char), s.length ≤ n → RMatch (.star .dot) s →
      ∀ c ∈ s, isLineTerm c = false := by
  intro n
  induction n with
  | zero =>
    intro s hlen _ c hc
    have hnil : s = [] := List.eq_nil_of_length_eq_zero (Nat.le_zero.mp hlen)
    subst hnil
    simp at hc
  | succ n ih =>
    intro s hlen h c hc
    rcases rmatch_star_iff.mp h with rfl | ⟨d, s₁, s₂, rfl, h₁, h₂⟩
    · simp at hc
    · rcases rmatch_dot_iff.mp h₁ with ⟨e, he, hterm⟩
      injection he with he1 he2
      subst he1
      subst he2
      have hlen₂ : s₂.length ≤ n := by
        simp at hlen
        omega
      rcases List.mem_cons.mp (by simpa using hc) with rfl | hc'
      · exact hterm
      · exact ih s₂ hlen₂ h₂ c hc'

/-- The strings `.*` matches are exactly the line-terminator-free ones. -/
theorem starDot_chars {s : List Char} (h : RMatch (.star .dot) s) :
    ∀ c ∈ s, isLineTerm c = false :=
  starDot_chars_len s.length s le_rfl h

theorem rmatch_padded_iff (r : RE) (s : List Char) :
    RMatch (.seq (.star .any) (.seq r (.star .any))) s ↔
      ∃ p m q, s = p ++ m ++ q ∧ RMatch r m := by
  rw [rmatch_seq_iff]
  constructor
  · rintro ⟨p, rest, rfl, -, h⟩
    rcases rmatch_seq_iff.mp h with ⟨m, q, rfl, hm, -⟩
    exact ⟨p, m, q, by simp, hm⟩
  · rintro ⟨p, m, q, rfl, hm⟩
    exact ⟨p, m ++ q, by simp, rmatch_starAny p,
      rmatch_seq_iff.mpr ⟨m, q, rfl, hm, rmatch_starAny q⟩⟩

theorem rmatch_litChain (seg : List Char) (k : RE) :
    ∀ s, RMatch (litChain seg k) s ↔
      ∃ suf, s = seg.map Char.toLower ++ suf ∧ RMatch k suf := by
  induction seg with
  | nil => intro s; simp [litChain]
  | cons c cs ih =>
    intro s
    simp only [litChain, rmatch_seq_iff, rmatch_lit_iff, List.map_cons]
    constructor
    · rintro ⟨s₁, s₂, rfl, rfl, h₂⟩
      rcases (ih s₂).mp h₂ with ⟨suf, rfl, hk⟩
      exact ⟨suf, by simp, hk⟩
    · rintro ⟨suf, rfl, hk⟩
      exact ⟨[c.toLower], cs.map Char.toLower ++ suf, by simp, rfl,
        (ih _).mpr ⟨suf, rfl, hk⟩⟩

/-- Gap-constrained continuation of `ChunksBetween`: each further lowered
segment is preceded by a line-terminator-free gap (the text the compiled
`.*` consumes); the text after the last segment is unconstrained (it lies
outside the match). -/
def ChunksTail : List (List Char) → List Char → Prop
  | [], _ => True
  | seg :: rest, s => ∃ g suf, s = g ++ seg ++ suf ∧
      (∀ c ∈ g, isLineTerm c = false) ∧ ChunksTail rest suf

/-- The faithful reading of the compiled pattern's unanchored test: the
lowered segments occur in order; the text strictly between consecutive
segments contains no line terminator (`.` without the `s` flag excludes
them); the text before the first and after the last segment is
arbitrary. -/
def ChunksBetween : List (List Char) → List Char → Prop
  | [], _ => True
  | seg :: rest, s => ∃ pre suf, s = pre ++ seg ++ suf ∧ ChunksTail rest suf

/-- The exact (anchored) language of `segsRE`. -/
def SegsMatch : List (List Char) → List Char → Prop
  | [], s => s = []
  | [seg], s => s = seg.map Char.toLower
  | seg :: rest, s => ∃ g suf, s = seg.map Char.toLower ++ g ++ suf ∧
      (∀ c ∈ g, isLineTerm c = false) ∧ SegsMatch rest suf

theorem rmatch_segsRE (segs : List (List Char)) :
    ∀ s, RMatch (segsRE segs) s ↔ SegsMatch segs s := by
  induction segs with
  | nil => intro s; simp [segsRE, SegsMatch, rmatch_eps_iff]
  | cons seg rest ih =>
    intro s
    cases rest with
    | nil =>
      simp only [segsRE, SegsMatch]
      rw [rmatch_litChain]
      constructor
      · rintro ⟨suf, rfl, hk⟩
        have hnil : suf = [] := rmatch_eps_iff.mp hk
        subst hnil
        simp
      · rintro rfl
        exact ⟨[], by simp, .eps⟩
    | cons seg' rest' =>
      simp only [segsRE, SegsMatch]
      rw [rmatch_litChain]
      constructor
      · rintro ⟨suf, rfl, hk⟩
        rcases rmatch_seq_iff.mp hk with ⟨g, m', rfl, hg, hm'⟩
        exact ⟨g, m', by simp, starDot_chars hg, (ih m').mp hm'⟩
      · rintro ⟨g, suf', rfl, hg, hsm⟩
        exact ⟨g ++ suf', by simp, rmatch_seq_iff.mpr
          ⟨g, suf', rfl, rmatch_starDot g hg, (ih suf').mpr hsm⟩⟩

theorem chunksTail_iff (rest : List (List Char)) :
    ∀ s, (∃ g m q, s = g ++ m ++ q ∧ (∀ c ∈ g, isLineTerm c = false) ∧
        SegsMatch rest m) ↔
      ChunksTail (rest.map (List.map Char.toLower)) s := by
  induction rest with
  | nil =>
    intro s
    simp only [List.map_nil, ChunksTail, iff_true]
    exact ⟨[], [], s, by simp, by simp, rfl⟩
  | cons seg rest' ih =>
    intro s
    cases rest' with
    | nil =>
      simp only [SegsMatch, List.map_cons, List.map_nil, ChunksTail]
      constructor
      · rintro ⟨g, m, q, rfl, hg, rfl⟩
        exact ⟨g, q, by simp, hg, trivial⟩
      · rintro ⟨g, suf, rfl, hg, -⟩
        exact ⟨g, seg.map Char.toLower, suf, by simp, hg, rfl⟩
    | cons seg' rest'' =>
      simp only [SegsMatch, List.map_cons, ChunksTail]
      constructor
      · rintro ⟨g, m, q, rfl, hg, g₂, suf', rfl, hg₂, hsm⟩
        refine ⟨g, g₂ ++ suf' ++ q, by simp, hg, ?_⟩
        exact (ih (g₂ ++ suf' ++ q)).mp ⟨g₂, suf', q, by simp, hg₂, hsm⟩
      · rintro ⟨g, suf, rfl, hg, htail⟩
        rcases (ih suf).mpr htail with ⟨g₂, m', q', rfl, hg₂, hsm⟩
        exact ⟨g, seg.map Char.toLower ++ g₂ ++ m', q', by simp, hg,
          g₂, m', by simp, hg₂, hsm⟩

theorem padded_segsRE_iff (segs : List (List Char)) :
    ∀ s, (∃ p m q, s = p ++ m ++ q ∧ RMatch (segsRE segs) m) ↔
      ChunksBetween (segs.map (List.map Char.toLower)) s := by
  intro s
  cases segs with
  | nil =>
    simp only [List.map_nil, ChunksBetween, iff_true]
    exact ⟨s, [], [], by simp, (rmatch_segsRE [] []).mpr (by simp [SegsMatch])⟩
  | cons seg rest =>
    cases rest with
    | nil =>
      simp only [List.map_cons, List.map_nil, ChunksBetween]
      constructor
      · rintro ⟨p, m, q, rfl, hm⟩
        have hm' := (rmatch_segsRE [seg] m).mp hm
        simp only [SegsMatch] at hm'
        subst hm'
        exact ⟨p, q, by simp, trivial⟩
      · rintro ⟨pre, suf, rfl, -⟩
        exact ⟨pre, seg.map Char.toLower, suf, by simp,
          (rmatch_segsRE [seg] _).mpr (by simp [SegsMatch])⟩
    | cons seg' rest' =>
      simp only [List.map_cons, ChunksBetween]
      constructor
      · rintro ⟨p, m, q, rfl, hm⟩
        have hm' := (rmatch_segsRE (seg :: seg' :: rest') m).mp hm
        simp only [SegsMatch] at hm'
        rcases hm' with ⟨g, suf', rfl, hg, hsm⟩
        refine ⟨p, g ++ suf' ++ q, by simp, ?_⟩
        exact (chunksTail_iff (seg' :: rest') (g ++ suf' ++ q)).mp
          ⟨g, suf', q, by simp, hg, hsm⟩
      · rintro ⟨pre, suf, rfl, htail⟩
        rcases (chunksTail_iff (seg' :: rest') suf).mpr htail with
          ⟨g, m', q', rfl, hg, hsm⟩
        refine ⟨pre, seg.map Char.toLower ++ g ++ m', q', by simp, ?_⟩
        exact (rmatch_segsRE (seg :: seg' :: rest') _).mpr
          (by
            simp only [SegsMatch]
            exact ⟨g, m', by simp, hg, hsm⟩)

/-- Follows the claim's words ("every other character of the pattern
matched literally"): the pattern's `%`-separated pieces, taken as literal
text, occur in order, case-insensitively and unanchored. -/
def likeSpecLiteral (pat input : String) : Prop :=
  ChunksIn ((pat.toList.splitOn '%').map (List.map Char.toLower))
    (strLower input).toList

/-- C4, counterexample: the pattern `"J.n"` contains no `%`, so under the
claim it matches only strings containing the literal text `"J.n"`; the
source instead builds the regex `/J.n/i`, where `.` matches any character
other than a line terminator, and accepts `"Jan"`. -/
theorem C4_counterexample :
    likeTest "J.n" "Jan" = some true ∧ ¬ likeSpecLiteral "J.n" "Jan" := by
  refine ⟨rfl, ?_⟩
  intro h
  have h' : ChunksIn [['j', '.', 'n']] ['j', 'a', 'n'] := h
  rcases h' with ⟨pre, suf, heq, -⟩
  have hl := congrArg List.length heq
  simp at hl
  have hp : pre = [] := List.eq_nil_of_length_eq_zero (by omega)
  have hq : suf = [] := List.eq_nil_of_length_eq_zero (by omega)
  subst hp; subst hq
  simp at heq

/-- C4 (amended): `$like` translates `%` to the regex `.*` and matches
case-insensitively and unanchored, but characters other than `%` are
interpreted under regular-expression semantics rather than literally
(e.g. `.` matches any single character other than a line terminator — see
the counterexample).  For patterns whose other characters are plain (no
regex metacharacters), the match means exactly: the literal segments
occur in the string, in order, case-insensitively, anywhere, with no line
terminator strictly between consecutive segments (because `.` without
the `s` flag excludes line terminators, and so therefore does the
expansion of `%`); no error is raised.  In particular `"J%"` matches
`"jane"` and `"John"` but not `"Ann"`, and `"a%b"` matches `"a-b"` but
not `"a\nb"`. -/
theorem C4_like_pattern (segs : List (List Char)) (input : String)
    (hs : ∀ seg ∈ segs, ∀ c ∈ seg, regexMeta c = false ∧ c ≠ '%' ∧ c ≠ '.') :
    (likeTest (String.mk (joinPercent segs)) input = some true ↔
      ChunksBetween (segs.map (List.map Char.toLower)) (strLower input).toList)
    ∧ (likeTest (String.mk (joinPercent segs)) input).isSome = true
    ∧ likeTest "J%" "jane" = some true
    ∧ likeTest "J%" "John" = some true
    ∧ likeTest "J%" "Ann" = some false
    ∧ likeTest "a%b" "a-b" = some true
    ∧ likeTest "a%b" "a\nb" = some false := by
  have hc : compileLikeChars (String.mk (joinPercent segs)).toList = some (segsRE segs) :=
    compileLike_joinPercent segs hs
  refine ⟨?_, ?_, rfl, rfl, rfl, rfl, rfl⟩
  · rw [likeTest, hc]
    simp only [Option.map_some', Option.some.injEq]
    rw [show (reTest (segsRE segs) (strLower input).toList = true ↔
        RMatch (.seq (.star .any) (.seq (segsRE segs) (.star .any)))
          (strLower input).toList) from reMatch_iff_rmatch _ _]
    rw [rmatch_padded_iff]
    exact padded_segsRE_iff segs (strLower input).toList
  · rw [likeTest, hc]
    rfl

/-- C4 witness: pattern `"a%b"` matches `"xAyB"` case-insensitively with
`%` spanning the terminator-free gap. -/
theorem C4_witness :
    likeTest (String.mk (joinPercent [['a'], ['b']])) "xAyB" = some true :=
  ((C4_like_pattern [['a'], ['b']] "xAyB" (by decide)).1).mpr
    ⟨['x'], ['y', 'b'], rfl, ⟨['y'], [], rfl, by decide, trivial⟩⟩

/-! ### C5: the sorter's per-key comparison -/

/-- Follows the claim's words: numeric comparison only when both stored
values parse as *finite* numbers (infinities take the string branch). -/
def keyDiffSpecFinite (a b : Data) (field : String) : JNum :=
  let av := getV a field
  let bv := getV b field
  if (match parseFloatVal av with | .val _ => true | _ => false)
      && (match parseFloatVal bv with | .val _ => true | _ => false) then
    JNum.sub (parseFloatVal av) (parseFloatVal bv)
  else
    strCmp (jsToString (jsOrEmpty av)) (jsToString (jsOrEmpty bv))

/-- C5, counterexample: the stored strings `"-5"` and `"-Infinity"` both
parse non-NaN, so the source compares them numerically and sorts
`"-Infinity"` first; under the claim's words `"-Infinity"` is not finite,
so the comparison would be lexicographic and `"-5"` would sort first. -/
theorem C5_counterexample :
    sortRecords [[("k", .vstr "-5")], [("k", .vstr "-Infinity")]] [("k", "asc")] =
      [[("k", .vstr "-Infinity")], [("k", .vstr "-5")]]
    ∧ (keyDiffSpecFinite [("k", .vstr "-5")] [("k", .vstr "-Infinity")] "k").sortSign = -1
    ∧ (rawKeyDiff [("k", .vstr "-5")] [("k", .vstr "-Infinity")] "k").sortSign = 1 :=
  ⟨rfl, rfl, rfl⟩

/-- C5 (amended): the sorter's per-key comparison is numeric whenever both
stored values `parseFloat` to a non-NaN number (infinite values included),
and otherwise is a code-unit lexicographic string comparison in which every
falsy value — in particular a missing or `null` value — is coerced to the
empty string; the per-key result is negated exactly when the direction
string lowercases to `"desc"`. -/
theorem C5_per_key_comparison (a b : Data) (field : String) :
    (parseFloatVal (getV a field) ≠ .nan → parseFloatVal (getV b field) ≠ .nan →
      rawKeyDiff a b field =
        JNum.sub (parseFloatVal (getV a field)) (parseFloatVal (getV b field)))
    ∧ ((parseFloatVal (getV a field) = .nan ∨ parseFloatVal (getV b field) = .nan) →
      rawKeyDiff a b field =
        strCmp (jsToString (jsOrEmpty (getV a field))) (jsToString (jsOrEmpty (getV b field))))
    ∧ ((getV a field = .vundef ∨ getV a field = .vnull) →
      jsToString (jsOrEmpty (getV a field)) = "")
    ∧ (∀ dir, strLower dir = "desc" →
      applyDir (rawKeyDiff a b field) dir = (rawKeyDiff a b field).neg)
    ∧ (∀ dir, strLower dir ≠ "desc" →
      applyDir (rawKeyDiff a b field) dir = rawKeyDiff a b field) := by
  refine ⟨?_, ?_, ?_, ?_, ?_⟩
  · intro h1 h2
    have hb1 : (parseFloatVal (getV a field) != JNum.nan) = true := by simpa using h1
    have hb2 : (parseFloatVal (getV b field) != JNum.nan) = true := by simpa using h2
    simp [rawKeyDiff, hb1, hb2]
  · intro h
    rcases h with h | h <;> simp [rawKeyDiff, h]
  · intro h
    rcases h with h | h <;> rw [h] <;> rfl
  · intro dir hdir
    simp [applyDir, hdir]
  · intro dir hdir
    simp [applyDir, hdir]

/-- C5 witness: two numeric stored values compare numerically. -/
theorem C5_witness :
    rawKeyDiff [("k", .vnum (.val (intFrac 5)))] [("k", .vnum (.val (intFrac 3)))] "k" =
      JNum.sub (.val (intFrac 5)) (.val (intFrac 3)) :=
  (C5_per_key_comparison [("k", .vnum (.val (intFrac 5)))]
      [("k", .vnum (.val (intFrac 3)))] "k").1 (by decide) (by decide)

/-! ### C6: the query pipeline -/

/-- C6 (confirmed): `applyQueryOptions` is exactly the composition of the
filter stage (when `where` is present), then the sort stage (when
`orderBy` is present), then the slice stage taking `limit` items from
`offset` (default `0`, when `limit` is present); and for every non-empty
record list, `limit = 2` with `offset = length` yields the empty sequence
with no error. -/
theorem C6_query_pipeline (records : List Data) (options : QueryOpts) :
    (applyQueryOptions records options =
      (filterStage options records).map (fun r1 => sliceStage options (sortStage options r1)))
    ∧ (records ≠ [] →
      applyQueryOptions records
        { whereC := none, orderBy := none, limit := some 2,
          offset := some (records.length : Int) } = some []) := by
  constructor
  · rcases options with ⟨w, ob, lim, off⟩
    cases w with
    | none => rfl
    | some w =>
      show (match filterRecords records w with
            | none => none
            | some r1 => _) = (filterRecords records w).map _
      cases hf : filterRecords records w <;> simp [filterStage, sortStage, sliceStage, hf]
  · intro _
    have hslice : jsSlice records (records.length : Int) ((records.length : Int) + 2) = [] := by
      have h1 : ¬((records.length : Int) < 0) := by omega
      have h2 : ¬((records.length : Int) + 2 < 0) := by omega
      have h3 : (records.length : Int) ≤ (records.length : Int) + 2 := by omega
      simp only [jsSlice, if_neg h1, if_neg h2, min_self, min_eq_right h3]
      simp
    show some (jsSlice records (records.length : Int) ((records.length : Int) + 2)) = some []
    rw [hslice]

/-- C6 witness: pagination starting at the collection length is empty. -/
theorem C6_witness :
    applyQueryOptions [[("a", .vnum (.val (intFrac 1)))]]
      { whereC := none, orderBy := none, limit := some 2, offset := some 1 } = some [] :=
  (C6_query_pipeline [[("a", .vnum (.val (intFrac 1)))]] {}).2 (by simp)

/-! ### C7: validation accumulates every violation -/

theorem foldl_append_bind {α β : Type} (f : α → List β) (l : List α) :
    ∀ init, l.foldl (fun acc fe => acc ++ f fe) init = init ++ l.flatMap f := by
  induction l with
  | nil => intro init; simp
  | cons a t ih => intro init; simp [ih, List.append_assoc]

theorem bind_sublist_of_mem {α β : Type} (f : α → List β) {l : List α} {a : α}
    (h : a ∈ l) : (f a).Sublist (l.flatMap f) := by
  induction l with
  | nil => cases h
  | cons x t ih =>
    rcases List.mem_cons.mp h with rfl | h'
    · simp only [List.flatMap_cons]
      exact List.sublist_append_left (f a) (t.flatMap f)
    · exact (ih h').trans
        (by simp only [List.flatMap_cons]
            exact List.sublist_append_right (f x) (t.flatMap f))

/-- C7 (confirmed): `validateData` evaluates every schema entry's rules —
each entry's violation list appears inside the aggregate, so no entry
short-circuits another — and throws exactly one error whose message is
`"Validation failed: "` followed by all individual messages joined by
`", "` when at least one rule is violated, returning normally otherwise. -/
theorem C7_validate_aggregates (data : Data) (schema : Schema) (p : Bool) :
    (schema.flatMap (fieldErrors data p) = [] → validateData data schema p = .ok true)
    ∧ (schema.flatMap (fieldErrors data p) ≠ [] →
        validateData data schema p =
          .error ("Validation failed: " ++
            String.intercalate ", " (schema.flatMap (fieldErrors data p))))
    ∧ (∀ fe ∈ schema, (fieldErrors data p fe).Sublist (schema.flatMap (fieldErrors data p))) := by
  have hfold : schema.foldl (fun acc fe => acc ++ fieldErrors data p fe) [] =
      schema.flatMap (fieldErrors data p) := by
    simpa using foldl_append_bind (fieldErrors data p) schema []
  refine ⟨?_, ?_, ?_⟩
  · intro h
    unfold validateData
    rw [hfold, h]
    rfl
  · intro h
    unfold validateData
    rw [hfold, if_neg (by simpa using h)]
  · intro fe hfe
    exact bind_sublist_of_mem (fieldErrors data p) hfe

/-- C7 witness: one violated rule yields the single aggregated error. -/
theorem C7_witness :
    validateData [("n", .vstr "x")] [("n", { type := some "number" })] false =
      .error "Validation failed: Field 'n' should be of type number" :=
  ((C7_validate_aggregates [("n", .vstr "x")] [("n", { type := some "number" })] false).2.1
      (by decide)).trans (by rfl)

/-! ### C8: the number type check -/

/-- Follows the claim's words: a `number` field accepts exactly numeric
values and strings parseable as a finite number. -/
def numberAcceptsSpec (v : JSVal) : Bool :=
  match v with
  | .vnum _ => true
  | .vstr s =>
    match toNumberChars s.toList with
    | .val _ => true
    | _ => false
  | _ => false

/-- C8, counterexample: the boolean `true` is neither a numeric value nor
a string, yet `Number(true) = 1` is not NaN, so the source's number type
check accepts it and validation passes where the claim requires the
type-violation message. -/
theorem C8_counterexample :
    validateData [("n", .vbool true)] [("n", { type := some "number" })] false = .ok true
    ∧ numberAcceptsSpec (.vbool true) = false :=
  ⟨rfl, rfl⟩

/-- C8 (amended): for a field declared `number`, a present value passes
the type check exactly when it is a number or its `Number(...)` conversion
(`ToNumber`, after `ToPrimitive`) is not NaN — this additionally accepts
booleans, `null`, empty and whitespace strings, hex/octal/binary-literal
strings, `"Infinity"`, and `Date` values — and otherwise validation
throws the type-violation message for that field. -/
theorem C8_number_typecheck (f : String) (v : JSVal) (hdef : v.isDef = true) :
    (validateData [(f, v)] [(f, { type := some "number" })] false = .ok true ↔
      (isNum v || toNumberVal v != JNum.nan) = true)
    ∧ ((isNum v || toNumberVal v != JNum.nan) = false →
      validateData [(f, v)] [(f, { type := some "number" })] false =
        .error ("Validation failed: Field '" ++ f ++ "' should be of type number")) := by
  have hv : getV [(f, v)] f = v := by simp [getV, List.find?]
  have htv : typeValid "number" v = (isNum v || toNumberVal v != JNum.nan) := by
    cases v <;> rfl
  have hfe : fieldErrors [(f, v)] false (f, { type := some "number" }) =
      if isNum v || toNumberVal v != JNum.nan then []
      else ["Field '" ++ f ++ "' should be of type number"] := by
    simp only [fieldErrors, hv, hdef]
    cases hb : (isNum v || toNumberVal v != JNum.nan) with
    | true => simp [htv, hb]
    | false =>
      simp [htv, hb]
      rw [String.append_assoc]
      exact congrArg (fun x => "Field '" ++ f ++ x)
        (rfl : "' should be of type " ++ "number" = "' should be of type number")
  have hval : validateData [(f, v)] [(f, { type := some "number" })] false =
      (if (fieldErrors [(f, v)] false (f, { type := some "number" })).isEmpty then
        Except.ok true
       else
        .error ("Validation failed: " ++ String.intercalate ", "
          (fieldErrors [(f, v)] false (f, { type := some "number" })))) := rfl
  constructor
  · rw [hval, hfe]
    cases hb : (isNum v || toNumberVal v != JNum.nan) <;> simp
  · intro hb
    rw [hval, hfe, hb]
    rfl

/-- C8 witness: a numeric string passes the number type check. -/
theorem C8_witness :
    validateData [("n", .vstr "42")] [("n", { type := some "number" })] false = .ok true :=
  (C8_number_typecheck "n" (.vstr "42") rfl).1.mpr (by decide)

/-! ### C9: applyDefaults -/

theorem getV_cons (p : String × JSVal) (t : Data) (k : String) :
    getV (p :: t) k = if p.1 = k then p.2 else getV t k := by
  by_cases h : p.1 = k <;> simp [getV, List.find?, h]

theorem getV_map_overwrite_ne (d : Data) (k k' : String) (v : JSVal) (h : k' ≠ k) :
    getV (d.map (fun p => if p.1 = k then (p.1, v) else p)) k' = getV d k' := by
  induction d with
  | nil => rfl
  | cons p t ih =>
    rw [List.map_cons, getV_cons, getV_cons]
    by_cases hp : p.1 = k
    · rw [if_pos hp, if_neg (by simp [hp, Ne.symm h]), if_neg (by simp [hp, Ne.symm h]), ih]
    · rw [if_neg hp]
      by_cases hq : p.1 = k'
      · rw [if_pos hq, if_pos hq]
      · rw [if_neg hq, if_neg hq, ih]

theorem getV_append_ne (d : Data) (k k' : String) (v : JSVal) (h : k' ≠ k) :
    getV (d ++ [(k, v)]) k' = getV d k' := by
  induction d with
  | nil =>
    show getV [(k, v)] k' = getV [] k'
    rw [getV_cons, if_neg (Ne.symm h)]
  | cons p t ih =>
    rw [List.cons_append, getV_cons, getV_cons, ih]

theorem getV_setV_ne (d : Data) (k k' : String) (v : JSVal) (h : k' ≠ k) :
    getV (setV d k v) k' = getV d k' := by
  unfold setV
  by_cases hk : hasKey d k = true
  · rw [if_pos hk]
    exact getV_map_overwrite_ne d k k' v h
  · rw [if_neg hk]
    exact getV_append_ne d k k' v h

theorem getV_map_overwrite_self (d : Data) (k : String) (v : JSVal)
    (h : hasKey d k = true) :
    getV (d.map (fun p => if p.1 = k then (p.1, v) else p)) k = v := by
  induction d with
  | nil => simp [hasKey] at h
  | cons p t ih =>
    rw [List.map_cons, getV_cons]
    by_cases hp : p.1 = k
    · rw [if_pos hp]
      simp [hp]
    · have ht : hasKey t k = true := by
        simpa [hasKey, List.any_cons, hp] using h
      rw [if_neg hp, if_neg (by simpa using hp), ih ht]

theorem getV_append_self (d : Data) (k : String) (v : JSVal)
    (h : hasKey d k = false) :
    getV (d ++ [(k, v)]) k = v := by
  induction d with
  | nil =>
    show getV [(k, v)] k = v
    rw [getV_cons, if_pos rfl]
  | cons p t ih =>
    have h' : ¬(p.1 = k) ∧ hasKey t k = false := by
      simpa [hasKey, List.any_cons] using h
    rw [List.cons_append, getV_cons, if_neg h'.1]
    exact ih h'.2

theorem getV_setV_self (d : Data) (k : String) (v : JSVal) :
    getV (setV d k v) k = v := by
  unfold setV
  by_cases hk : hasKey d k = true
  · rw [if_pos hk]
    exact getV_map_overwrite_self d k v hk
  · rw [if_neg hk]
    exact getV_append_self d k v (by simpa using hk)

theorem applyDefaultsStep_ne (result : Data) (fe : String × FieldSpec) (k : String)
    (h : fe.1 ≠ k) :
    getV (applyDefaultsStep result fe) k = getV result k := by
  unfold applyDefaultsStep
  by_cases hd : (getV result fe.1).isDef = true
  · rw [if_pos hd]
  · rw [if_neg hd]
    cases fe.2.defaultValue with
    | none => rfl
    | some dv => exact getV_setV_ne result fe.1 k dv.eval (Ne.symm h)

theorem applyDefaults_preserves (schema : Schema) :
    ∀ (data : Data) (k : String), (getV data k).isDef = true →
      getV (applyDefaults data schema) k = getV data k := by
  induction schema with
  | nil => intro data k _; rfl
  | cons fe rest ih =>
    intro data k h
    show getV (List.foldl applyDefaultsStep (applyDefaultsStep data fe) rest) k = getV data k
    have hpres : getV (applyDefaultsStep data fe) k = getV data k := by
      unfold applyDefaultsStep
      by_cases hd : (getV data fe.1).isDef = true
      · rw [if_pos hd]
      · rw [if_neg hd]
        cases hdv : fe.2.defaultValue with
        | none => rfl
        | some dv =>
          have hne : fe.1 ≠ k := fun he => hd (he ▸ h)
          exact getV_setV_ne data fe.1 k dv.eval (Ne.symm hne)
    have hrec := ih (applyDefaultsStep data fe) k (by rw [hpres]; exact h)
    exact hrec.trans hpres

theorem applyDefaultsStep_ne' (result : Data) (fe : String × FieldSpec) (k : String)
    (h : fe.1 ≠ k) :
    getV (applyDefaultsStep result fe) k = getV result k :=
  applyDefaultsStep_ne result fe k h

theorem applyDefaults_not_mem (schema : Schema) :
    ∀ (data : Data) (k : String), (∀ p ∈ schema, p.1 ≠ k) →
      getV (applyDefaults data schema) k = getV data k := by
  induction schema with
  | nil => intro data k _; rfl
  | cons fe rest ih =>
    intro data k hns
    show getV (List.foldl applyDefaultsStep (applyDefaultsStep data fe) rest) k = getV data k
    have h1 : getV (applyDefaultsStep data fe) k = getV data k :=
      applyDefaultsStep_ne data fe k (hns fe (by simp))
    have h2 := ih (applyDefaultsStep data fe) k (fun p hp => hns p (by simp [hp]))
    exact h2.trans h1

theorem applyDefaults_default (schema : Schema) :
    ∀ (data : Data) (k : String) (sp : FieldSpec) (dv : DefaultV),
      (schema.map Prod.fst).Nodup → (getV data k).isDef = false →
      (k, sp) ∈ schema → sp.defaultValue = some dv →
      getV (applyDefaults data schema) k = dv.eval := by
  induction schema with
  | nil => intro _ _ _ _ _ _ hmem _; cases hmem
  | cons fe rest ih =>
    intro data k sp dv hnd hundef hmem hdv
    have hnd0 : fe.1 ∉ rest.map Prod.fst ∧ (rest.map Prod.fst).Nodup :=
      List.nodup_cons.mp (by simpa using hnd)
    show getV (List.foldl applyDefaultsStep (applyDefaultsStep data fe) rest) k = dv.eval
    rcases List.mem_cons.mp hmem with heq | hmem'
    · have hstep : applyDefaultsStep data fe = setV data k dv.eval := by
        rw [← heq]
        unfold applyDefaultsStep
        rw [if_neg (by simp [hundef])]
        simp [hdv]
      rw [hstep]
      have hnotin : ∀ p ∈ rest, p.1 ≠ k := by
        intro p hp he
        have hk : k ∈ rest.map Prod.fst := by
          rw [← he]
          exact List.mem_map_of_mem Prod.fst hp
        have hni := hnd0.1
        rw [← heq] at hni
        exact hni hk
      have hrest := applyDefaults_not_mem rest (setV data k dv.eval) k hnotin
      exact hrest.trans (getV_setV_self data k dv.eval)
    · have hk : k ∈ rest.map Prod.fst := List.mem_map_of_mem Prod.fst hmem'
      have hfe : fe.1 ≠ k := fun he => hnd0.1 (he ▸ hk)
      have hpres : getV (applyDefaultsStep data fe) k = getV data k :=
        applyDefaultsStep_ne data fe k hfe
      exact ih (applyDefaultsStep data fe) k sp dv hnd0.2
        (by rw [hpres]; exact hundef) hmem' hdv

/-- C9 (confirmed): `applyDefaults` returns a mapping that agrees with the
candidate on every key whose value is defined (not `undefined`) — a default
never overwrites a present value — and, for a schema with distinct field
names, writes the declared default's (per-call evaluated) value into every
schema field that is undefined in the candidate.  The embedding is pure, so
the input mapping itself is untouched (the source spreads the input into a
fresh object before writing). -/
theorem C9_applyDefaults (schema : Schema) (data : Data) (k : String) :
    ((getV data k).isDef = true → getV (applyDefaults data schema) k = getV data k)
    ∧ ((schema.map Prod.fst).Nodup → (getV data k).isDef = false →
      ∀ sp dv, (k, sp) ∈ schema → sp.defaultValue = some dv →
        getV (applyDefaults data schema) k = dv.eval) :=
  ⟨fun h => applyDefaults_preserves schema data k h,
    fun hnd hu sp dv hm hdv => applyDefaults_default schema data k sp dv hnd hu hm hdv⟩

/-- C9 witness: a missing `age` receives its schema default `0` while the
present `name` is untouched. -/
theorem C9_witness :
    getV (applyDefaults [("name", .vstr "T")]
        [("age", { type := some "number",
                   defaultValue := some (.value (.vnum (.val (intFrac 0)))) })]) "age" =
      JSVal.vnum (.val (intFrac 0)) :=
  (C9_applyDefaults
      [("age", { type := some "number",
                 defaultValue := some (.value (.vnum (.val (intFrac 0)))) })]
      [("name", .vstr "T")] "age").2 (by simp) rfl
    { type := some "number", defaultValue := some (.value (.vnum (.val (intFrac 0)))) }
    (.value (.vnum (.val (intFrac 0)))) (by simp) rfl

/-! ### C10: `null` is not exempt from the type check -/

/-- C10 (confirmed): in non-partial validation a present `null` value is
not exempt from the remaining rules — only `undefined` is skipped — so a
required `date` (or `string`) field holding `null` yields both the
required-violation and the type-violation messages in the one thrown
error, in source push order. -/
theorem C10_null_not_exempt (f : String) :
    validateData [(f, .vnull)] [(f, { type := some "date", required := true })] false =
      .error ("Validation failed: " ++ String.intercalate ", "
        ["Field '" ++ f ++ "' is required", "Field '" ++ f ++ "' should be of type date"])
    ∧ validateData [(f, .vnull)] [(f, { type := some "string", required := true })] false =
      .error ("Validation failed: " ++ String.intercalate ", "
        ["Field '" ++ f ++ "' is required", "Field '" ++ f ++ "' should be of type string"]) := by
  have hv : getV [(f, JSVal.vnull)] f = .vnull := by simp [getV, List.find?]
  have hfe1 : fieldErrors [(f, .vnull)] false (f, { type := some "date", required := true }) =
      ["Field '" ++ f ++ "' is required",
        "Field '" ++ f ++ "' should be of type " ++ "date"] := by
    simp only [fieldErrors, hv]
    rfl
  have hfe2 : fieldErrors [(f, .vnull)] false (f, { type := some "string", required := true }) =
      ["Field '" ++ f ++ "' is required",
        "Field '" ++ f ++ "' should be of type " ++ "string"] := by
    simp only [fieldErrors, hv]
    rfl
  constructor
  · rw [show validateData [(f, .vnull)] [(f, { type := some "date", required := true })] false =
        (if (fieldErrors [(f, .vnull)] false (f, { type := some "date", required := true })).isEmpty
         then Except.ok true
         else .error ("Validation failed: " ++ String.intercalate ", "
           (fieldErrors [(f, .vnull)] false (f, { type := some "date", required := true }))))
        from rfl, hfe1]
    show Except.error _ = Except.error _
    rw [show ("Field '" ++ f ++ "' should be of type " ++ "date") =
        ("Field '" ++ f ++ "' should be of type date") from by
      rw [String.append_assoc]
      exact congrArg (fun x => "Field '" ++ f ++ x)
        (rfl : "' should be of type " ++ "date" = "' should be of type date")]
  · rw [show validateData [(f, .vnull)] [(f, { type := some "string", required := true })] false =
        (if (fieldErrors [(f, .vnull)] false (f, { type := some "string", required := true })).isEmpty
         then Except.ok true
         else .error ("Validation failed: " ++ String.intercalate ", "
           (fieldErrors [(f, .vnull)] false (f, { type := some "string", required := true }))))
        from rfl, hfe2]
    show Except.error _ = Except.error _
    rw [show ("Field '" ++ f ++ "' should be of type " ++ "string") =
        ("Field '" ++ f ++ "' should be of type string") from by
      rw [String.append_assoc]
      exact congrArg (fun x => "Field '" ++ f ++ x)
        (rfl : "' should be of type " ++ "string" = "' should be of type string")]

end GsOrm
